import Mathlib

set_option autoImplicit false
set_option maxRecDepth 100000

/-!
Verification development for the staticrypt repository.

The JavaScript sources are shallowly embedded:
* strings are `List Char` (JS strings; all strings handled here are made of
  UTF-16 units that coincide with code points),
* byte arrays (`Uint8Array`) are `List Nat` with every element `< 256`,
* fallible operations (`throw`) are `Option`,
* the AES block permutation used through `crypto.subtle` is an explicit
  `BlockCipher` parameter (the CBC mode, PKCS#7 padding and the wire format
  are defined concretely, following the observable contract of
  `subtle.encrypt`/`subtle.decrypt` with `AES-CBC`).
-/

namespace Staticrypt

/-- Bytes of a `Uint8Array`: each element is intended to be `< 256`. -/
abbrev Bytes := List Nat

/-! ## Hex encoder (src/lib/staticrypt.js, `HexEncoder`) -/

/-- Lower-case hex digit, as produced by JS `b.toString(16)` (0-9, a-f). -/
def hexDigitChar (n : Nat) : Char :=
  if n < 10 then Char.ofNat (48 + n) else Char.ofNat (87 + n)

/-- JS `b.toString(16).padStart(2, "0")` for a byte `b < 256`. -/
def byteToHex (b : Nat) : List Char :=
  [hexDigitChar (b / 16), hexDigitChar (b % 16)]

/-- The whitespace characters skipped by JS `parseInt` (ASCII part plus the
    common Unicode spaces; only the ASCII part is ever exercised here). -/
def jsWhitespaceChar (c : Char) : Bool :=
  c == ' ' || c == '\t' || c == '\n' || c == '\r' || c == '\x0b' || c == '\x0c'
    || c == ' ' || c == '﻿'

/-- Value of one hex digit (JS `parseInt` accepts both cases). -/
def hexDigitVal (c : Char) : Option Nat :=
  if 48 ≤ c.toNat ∧ c.toNat ≤ 57 then some (c.toNat - 48)
  else if 97 ≤ c.toNat ∧ c.toNat ≤ 102 then some (c.toNat - 87)
  else if 65 ≤ c.toNat ∧ c.toNat ≤ 70 then some (c.toNat - 55)
  else none

/-- JS `parseInt(s, 16)` on a two-character string `s = c₁c₂`, `none` for
    `NaN`.  `parseInt` skips leading whitespace, accepts an optional sign and
    an optional `0x`/`0X` prefix, then parses the longest hex-digit prefix;
    it yields `NaN` only when that prefix is empty. -/
def jsParseIntHex2 (c₁ c₂ : Char) : Option Int :=
  if c₁ = '0' ∧ (c₂ = 'x' ∨ c₂ = 'X') then none
  else
    match hexDigitVal c₁ with
    | some v₁ =>
      match hexDigitVal c₂ with
      | some v₂ => some ((16 * v₁ + v₂ : Nat) : Int)
      | none => some ((v₁ : Nat) : Int)
    | none =>
      if jsWhitespaceChar c₁ then (hexDigitVal c₂).map (fun v => (v : Int))
      else if c₁ = '+' then (hexDigitVal c₂).map (fun v => (v : Int))
      else if c₁ = '-' then (hexDigitVal c₂).map (fun v => -(v : Int))
      else none

/-- The loop of `HexEncoder.parse`: every aligned two-character group goes
    through `parseInt(·, 16)`; a `NaN` throws; the result is stored into a
    `Uint8Array` slot (which wraps modulo 256, hence the `Int.emod`). -/
def parseHexPairs : List Char → Option Bytes
  | [] => some []
  | [_] => none
  | c₁ :: c₂ :: rest =>
    match jsParseIntHex2 c₁ c₂ with
    | none => none
    | some v =>
      match parseHexPairs rest with
      | none => none
      | some bs => some ((v % 256).toNat :: bs)

namespace HexEncoder

/-- `HexEncoder.parse` (src/lib/staticrypt.js lines 16-25): throws on odd
    length, then parses every two-character group with `parseInt(·, 16)`. -/
def parse (s : List Char) : Option Bytes :=
  if s.length % 2 ≠ 0 then none else parseHexPairs s

/-- `HexEncoder.stringify` (src/lib/staticrypt.js lines 26-30). -/
def stringify (bs : Bytes) : List Char :=
  (bs.map byteToHex).flatten

end HexEncoder

theorem hexDigitVal_hexDigitChar : ∀ n, n < 16 → hexDigitVal (hexDigitChar n) = some n := by
  decide

theorem jsParseIntHex2_byteToHex : ∀ b, b < 256 →
    jsParseIntHex2 (hexDigitChar (b / 16)) (hexDigitChar (b % 16)) = some (b : Int) := by
  decide

@[simp] theorem length_stringify (bs : Bytes) :
    (HexEncoder.stringify bs).length = 2 * bs.length := by
  induction bs with
  | nil => rfl
  | cons b bs ih =>
    simp [HexEncoder.stringify, byteToHex] at ih ⊢
    omega

theorem parseHexPairs_stringify (bs : Bytes) (h : ∀ b ∈ bs, b < 256) :
    parseHexPairs (HexEncoder.stringify bs) = some bs := by
  induction bs with
  | nil => rfl
  | cons b bs ih =>
    have hb : b < 256 := h b (List.mem_cons_self b bs)
    have hrest : ∀ x ∈ bs, x < 256 := fun x hx => h x (List.mem_cons_of_mem b hx)
    have hs : HexEncoder.stringify (b :: bs) =
        hexDigitChar (b / 16) :: hexDigitChar (b % 16) :: HexEncoder.stringify bs := by
      simp [HexEncoder.stringify, byteToHex]
    rw [hs]
    unfold parseHexPairs
    rw [jsParseIntHex2_byteToHex b hb, ih hrest]
    have hmod : ((b : Int) % 256).toNat = b := by omega
    simp [hmod]

/-- Hex decode is a left inverse of hex encode on genuine byte lists. -/
theorem parse_stringify (bs : Bytes) (h : ∀ b ∈ bs, b < 256) :
    HexEncoder.parse (HexEncoder.stringify bs) = some bs := by
  unfold HexEncoder.parse
  rw [length_stringify]
  simp [Nat.mul_mod_right, parseHexPairs_stringify bs h]

/-! ## AES-CBC through WebCrypto (src/lib/staticrypt.js, encrypt/decrypt)

`crypto.subtle` supplies the AES block permutation; it is kept abstract as a
`BlockCipher` parameter, while the CBC chaining, the PKCS#7 padding and the
well-formedness checks performed by `subtle.encrypt` / `subtle.decrypt` are
defined concretely. -/

/-- The block permutation behind `AES-CBC`.  The laws are the facts the code
    relies on: a 16-byte block of bytes maps to a 16-byte block of bytes and
    decryption inverts encryption under the same key. -/
structure BlockCipher where
  encryptBlock : Bytes → Bytes → Bytes
  decryptBlock : Bytes → Bytes → Bytes
  length_encryptBlock : ∀ k b, b.length = 16 → (encryptBlock k b).length = 16
  lt_encryptBlock : ∀ k b, (∀ x ∈ b, x < 256) → ∀ x ∈ encryptBlock k b, x < 256
  decryptBlock_encryptBlock : ∀ k b, b.length = 16 → decryptBlock k (encryptBlock k b) = b

/-- Bytewise XOR of two equal-length byte strings. -/
def xorBytes (a b : Bytes) : Bytes := List.zipWith (fun x y => x ^^^ y) a b

/-- Fuel-driven worker for `chunks` (structural recursion, so that the
    kernel can evaluate it on closed inputs). -/
def chunksGo (n : Nat) : Nat → Bytes → List Bytes
  | _, [] => []
  | 0, _ :: _ => []
  | fuel + 1, b :: bs => (b :: bs).take n :: chunksGo n fuel ((b :: bs).drop n)

/-- Split a byte string into consecutive chunks of `n` bytes (the last chunk
    may be shorter). -/
def chunks (n : Nat) (bs : Bytes) : List Bytes :=
  if n = 0 then [] else chunksGo n bs.length bs

theorem chunksGo_nil (n f : Nat) : chunksGo n f [] = [] := by
  cases f <;> rfl

theorem chunksGo_congr (n : Nat) (hn : 0 < n) :
    ∀ (f₁ f₂ : Nat) (bs : Bytes), bs.length ≤ f₁ → bs.length ≤ f₂ →
      chunksGo n f₁ bs = chunksGo n f₂ bs := by
  intro f₁
  induction f₁ with
  | zero =>
    intro f₂ bs h₁ _
    have hb : bs = [] := List.length_eq_zero.mp (Nat.le_zero.mp h₁)
    subst hb
    rw [chunksGo_nil, chunksGo_nil]
  | succ f ih =>
    intro f₂ bs h₁ h₂
    cases bs with
    | nil => rw [chunksGo_nil, chunksGo_nil]
    | cons b t =>
      cases f₂ with
      | zero => simp at h₂
      | succ g =>
        show (b :: t).take n :: chunksGo n f ((b :: t).drop n) =
          (b :: t).take n :: chunksGo n g ((b :: t).drop n)
        have hlen₁ : ((b :: t).drop n).length ≤ f := by
          simp only [List.length_drop, List.length_cons] at *
          omega
        have hlen₂ : ((b :: t).drop n).length ≤ g := by
          simp only [List.length_drop, List.length_cons] at *
          omega
        rw [ih _ _ hlen₁ hlen₂]

/-- The defining recurrence of `chunks`. -/
theorem chunks_eq (n : Nat) (bs : Bytes) :
    chunks n bs = if bs = [] ∨ n = 0 then [] else bs.take n :: chunks n (bs.drop n) := by
  by_cases hn : n = 0
  · subst hn
    rw [chunks, if_pos rfl, if_pos (Or.inr rfl)]
  · by_cases hbs : bs = []
    · subst hbs
      rw [if_pos (Or.inl rfl), chunks, if_neg hn, chunksGo_nil]
    · rw [if_neg (by simp [hbs, hn])]
      cases bs with
      | nil => exact absurd rfl hbs
      | cons b t =>
        rw [chunks, if_neg hn, chunks, if_neg hn]
        show (b :: t).take n :: chunksGo n t.length ((b :: t).drop n) = _
        congr 1
        apply chunksGo_congr n (Nat.pos_of_ne_zero hn)
        · simp only [List.length_drop, List.length_cons]
          omega
        · exact le_rfl

/-- PKCS#7 padding to the AES block size, as applied by `subtle.encrypt`. -/
def pkcs7pad (m : Bytes) : Bytes :=
  m ++ List.replicate (16 - m.length % 16) (16 - m.length % 16)

/-- PKCS#7 unpadding, as checked by `subtle.decrypt`: the last byte `p` must
    lie in `[1, 16]` and the last `p` bytes must all equal `p`; otherwise the
    operation fails (and the failure carries no further information). -/
def pkcs7unpad (bs : Bytes) : Option Bytes :=
  let p := bs.getLastD 0
  if 1 ≤ p ∧ p ≤ 16 ∧ p ≤ bs.length ∧ (bs.drop (bs.length - p)).all (fun x => x == p)
  then some (bs.take (bs.length - p))
  else none

/-- CBC encryption of a list of blocks, with `prev` the previous ciphertext
    block (initially the IV). -/
def cbcEncryptBlocks (C : BlockCipher) (key : Bytes) : Bytes → List Bytes → List Bytes
  | _, [] => []
  | prev, b :: rest =>
    let c := C.encryptBlock key (xorBytes b prev)
    c :: cbcEncryptBlocks C key c rest

/-- CBC decryption of a list of ciphertext blocks. -/
def cbcDecryptBlocks (C : BlockCipher) (key : Bytes) : Bytes → List Bytes → List Bytes
  | _, [] => []
  | prev, c :: rest =>
    xorBytes (C.decryptBlock key c) prev :: cbcDecryptBlocks C key c rest

/-- `subtle.importKey("raw", k, "AES-CBC", …)`: accepts 128/192/256-bit raw
    keys and fails on any other length. -/
def importKeyAesCbc (k : Bytes) : Option Bytes :=
  if k.length = 16 ∨ k.length = 24 ∨ k.length = 32 then some k else none

/-- `subtle.encrypt({name : "AES-CBC", iv}, key, data)`: requires a 16-byte
    IV, pads with PKCS#7 and CBC-encrypts. -/
def subtleEncrypt (C : BlockCipher) (iv key data : Bytes) : Option Bytes :=
  if iv.length = 16 then
    some (cbcEncryptBlocks C key iv (chunks 16 (pkcs7pad data))).flatten
  else none

/-- `subtle.decrypt({name : "AES-CBC", iv}, key, data)`: requires a 16-byte
    IV and a nonempty ciphertext whose length is a multiple of the block
    size, CBC-decrypts and removes the PKCS#7 padding. -/
def subtleDecrypt (C : BlockCipher) (iv key data : Bytes) : Option Bytes :=
  if iv.length = 16 ∧ data ≠ [] ∧ data.length % 16 = 0 then
    pkcs7unpad (cbcDecryptBlocks C key iv (chunks 16 data)).flatten
  else none

/-- `cryptoEngine.encrypt` (src/lib/staticrypt.js lines 40-57).  The fresh
    random IV is an explicit parameter; `msg` is the byte sequence the
    `TextEncoder` produces for the plaintext string. -/
def encrypt (C : BlockCipher) (iv msg : Bytes) (hashedPassword : List Char) :
    Option (List Char) := do
  let keyBytes ← HexEncoder.parse hashedPassword
  let key ← importKeyAesCbc keyBytes
  let encrypted ← subtleEncrypt C iv key msg
  some (HexEncoder.stringify iv ++ HexEncoder.stringify encrypted)

/-- `cryptoEngine.decrypt` (src/lib/staticrypt.js lines 59-80): the first
    `IV_BITS / HEX_BITS = 32` characters of the envelope are hex-parsed as
    the IV, the remainder as the ciphertext; the result is the decrypted byte
    sequence (which the code hands to a non-strict `TextDecoder`). -/
def decrypt (C : BlockCipher) (encryptedMsg hashedPassword : List Char) :
    Option Bytes := do
  let iv ← HexEncoder.parse (encryptedMsg.take 32)
  let keyBytes ← HexEncoder.parse hashedPassword
  let key ← importKeyAesCbc keyBytes
  let data ← HexEncoder.parse (encryptedMsg.drop 32)
  subtleDecrypt C iv key data

/-- A concrete `BlockCipher` used to run the construction on explicit inputs:
    every byte is XOR-ed with the first key byte.  It satisfies the interface
    laws (it is of course not AES). -/
def xorCipher : BlockCipher where
  encryptBlock k b := b.map (fun x => x ^^^ k.headD 0 % 256)
  decryptBlock k b := b.map (fun x => x ^^^ k.headD 0 % 256)
  length_encryptBlock := by intro k b hb; simpa using hb
  lt_encryptBlock := by
    intro k b hb x hx
    simp only [List.mem_map] at hx
    obtain ⟨y, hy, rfl⟩ := hx
    have h1 : y < 2 ^ 8 := hb y hy
    have h2 : k.headD 0 % 256 < 2 ^ 8 := Nat.mod_lt _ (by norm_num)
    exact Nat.xor_lt_two_pow h1 h2
  decryptBlock_encryptBlock := by
    intro k b _
    simp [List.map_map, Function.comp_def, Nat.xor_cancel_right]

/-! ### Round-trip facts about the CBC construction -/

@[simp] theorem length_xorBytes (a b : Bytes) :
    (xorBytes a b).length = min a.length b.length := by
  simp [xorBytes]

theorem xorBytes_cancel_right :
    ∀ (a p : Bytes), a.length = p.length → xorBytes (xorBytes a p) p = a
  | [], p, _ => by cases p <;> rfl
  | x :: a, [], h => by simp at h
  | x :: a, y :: p, h => by
    have : xorBytes (x :: a) (y :: p) = (x ^^^ y) :: xorBytes a p := rfl
    rw [this]
    have : xorBytes ((x ^^^ y) :: xorBytes a p) (y :: p) =
        ((x ^^^ y) ^^^ y) :: xorBytes (xorBytes a p) p := rfl
    rw [this, Nat.xor_cancel_right, xorBytes_cancel_right a p (by simpa using h)]

theorem xor_lt_256 {a b : Nat} (ha : a < 256) (hb : b < 256) : a ^^^ b < 256 := by
  have h : (256 : Nat) = 2 ^ 8 := by norm_num
  rw [h] at ha hb ⊢
  exact Nat.xor_lt_two_pow ha hb

theorem xorBytes_lt :
    ∀ (a b : Bytes), (∀ x ∈ a, x < 256) → (∀ x ∈ b, x < 256) →
      ∀ x ∈ xorBytes a b, x < 256
  | [], _, _, _ => by intro x hx; simp [xorBytes] at hx
  | _ :: _, [], _, _ => by intro x hx; simp [xorBytes] at hx
  | a :: as, b :: bs, ha, hb => by
    intro x hx
    have hcons : xorBytes (a :: as) (b :: bs) = (a ^^^ b) :: xorBytes as bs := rfl
    rw [hcons, List.mem_cons] at hx
    rcases hx with rfl | hx
    · exact xor_lt_256 (ha a (by simp)) (hb b (by simp))
    · exact xorBytes_lt as bs (fun y hy => ha y (by simp [hy]))
        (fun y hy => hb y (by simp [hy])) x hx

theorem chunks_flatten (blocks : List Bytes) (h : ∀ b ∈ blocks, b.length = 16) :
    chunks 16 blocks.flatten = blocks := by
  induction blocks with
  | nil => rw [chunks_eq]; simp
  | cons b bs ih =>
    have hb : b.length = 16 := h b (by simp)
    have hbne : b ≠ [] := by intro hc; rw [hc] at hb; simp at hb
    rw [List.flatten_cons, chunks_eq, if_neg]
    · rw [List.take_left' hb, List.drop_left' hb, ih (fun x hx => h x (by simp [hx]))]
    · simp [hbne]

theorem chunks16_of_mod (n : Nat) :
    ∀ (bs : Bytes), bs.length ≤ n → bs.length % 16 = 0 →
      (∀ b ∈ chunks 16 bs, b.length = 16) ∧ (chunks 16 bs).flatten = bs := by
  induction n with
  | zero =>
    intro bs hle _
    have hnil : bs = [] := List.length_eq_zero.mp (Nat.le_zero.mp hle)
    subst hnil
    refine ⟨fun b hb => ?_, by rw [chunks_eq]; simp⟩
    rw [chunks_eq] at hb; simp at hb
  | succ n ih =>
    intro bs hle hmod
    by_cases hbs : bs = []
    · subst hbs
      refine ⟨fun b hb => ?_, by rw [chunks_eq]; simp⟩
      rw [chunks_eq] at hb; simp at hb
    · have hpos : 0 < bs.length := List.length_pos.mpr hbs
      have h16 : 16 ≤ bs.length := by omega
      have htake : (bs.take 16).length = 16 := by simp [h16]
      have hdlen : (bs.drop 16).length = bs.length - 16 := by simp
      have hrec := ih (bs.drop 16) (by omega) (by omega)
      rw [chunks_eq, if_neg (by simp [hbs])]
      refine ⟨fun b hb => ?_, ?_⟩
      · rcases List.mem_cons.mp hb with rfl | hb
        · exact htake
        · exact hrec.1 b hb
      · rw [List.flatten_cons, hrec.2, List.take_append_drop]

theorem pkcs7pad_length (m : Bytes) :
    (pkcs7pad m).length = m.length + (16 - m.length % 16) := by
  simp [pkcs7pad]

theorem pkcs7pad_mod (m : Bytes) : (pkcs7pad m).length % 16 = 0 := by
  rw [pkcs7pad_length]; omega

theorem pkcs7pad_ne_nil (m : Bytes) : pkcs7pad m ≠ [] := by
  intro hc
  have := pkcs7pad_length m
  rw [hc] at this
  simp at this
  omega

theorem pkcs7pad_lt (m : Bytes) (h : ∀ x ∈ m, x < 256) :
    ∀ x ∈ pkcs7pad m, x < 256 := by
  intro x hx
  rcases List.mem_append.mp hx with h1 | h2
  · exact h x h1
  · have := (List.mem_replicate.mp h2).2
    omega

theorem pkcs7unpad_pkcs7pad (m : Bytes) : pkcs7unpad (pkcs7pad m) = some m := by
  have hlt : m.length % 16 < 16 := Nat.mod_lt _ (by omega)
  have hp1 : 1 ≤ 16 - m.length % 16 := by omega
  have hlast : (pkcs7pad m).getLast? = some (16 - m.length % 16) := by
    rw [pkcs7pad, List.getLast?_append, List.getLast?_replicate, if_neg (by omega)]
    rfl
  have hlastD : (pkcs7pad m).getLastD 0 = 16 - m.length % 16 := by
    rw [List.getLastD_eq_getLast?, hlast]; rfl
  have hsub : (pkcs7pad m).length - (16 - m.length % 16) = m.length := by
    rw [pkcs7pad_length]; omega
  simp only [pkcs7unpad, hlastD]
  rw [if_pos]
  · rw [hsub, pkcs7pad, List.take_left]
  · refine ⟨hp1, by omega, ?_, ?_⟩
    · rw [pkcs7pad_length]; omega
    · rw [hsub, pkcs7pad, List.drop_left]
      simp [List.all_eq_true]

theorem cbcEncryptBlocks_length (C : BlockCipher) (key : Bytes) :
    ∀ (blocks : List Bytes) (prev : Bytes), prev.length = 16 →
      (∀ b ∈ blocks, b.length = 16) →
      ∀ c ∈ cbcEncryptBlocks C key prev blocks, c.length = 16
  | [], _, _, _ => by intro c hc; simp [cbcEncryptBlocks] at hc
  | b :: bs, prev, hprev, hall => by
    intro c hc
    have hxlen : (xorBytes b prev).length = 16 := by
      rw [length_xorBytes, hall b (by simp), hprev]; rfl
    have henc := C.length_encryptBlock key _ hxlen
    simp only [cbcEncryptBlocks, List.mem_cons] at hc
    rcases hc with rfl | hc
    · exact henc
    · exact cbcEncryptBlocks_length C key bs _ henc
        (fun x hx => hall x (by simp [hx])) c hc

theorem cbcEncryptBlocks_lt (C : BlockCipher) (key : Bytes) :
    ∀ (blocks : List Bytes) (prev : Bytes), (∀ x ∈ prev, x < 256) →
      (∀ b ∈ blocks, ∀ x ∈ b, x < 256) →
      ∀ c ∈ cbcEncryptBlocks C key prev blocks, ∀ x ∈ c, x < 256
  | [], _, _, _ => by intro c hc; simp [cbcEncryptBlocks] at hc
  | b :: bs, prev, hprev, hall => by
    intro c hc
    have hxlt : ∀ x ∈ xorBytes b prev, x < 256 :=
      xorBytes_lt b prev (hall b (by simp)) hprev
    have henc := C.lt_encryptBlock key _ hxlt
    simp only [cbcEncryptBlocks, List.mem_cons] at hc
    rcases hc with rfl | hc
    · exact henc
    · exact cbcEncryptBlocks_lt C key bs _ henc
        (fun y hy => hall y (by simp [hy])) c hc

theorem cbcDecryptBlocks_cbcEncryptBlocks (C : BlockCipher) (key : Bytes) :
    ∀ (blocks : List Bytes) (prev : Bytes), prev.length = 16 →
      (∀ b ∈ blocks, b.length = 16) →
      cbcDecryptBlocks C key prev (cbcEncryptBlocks C key prev blocks) = blocks
  | [], _, _, _ => rfl
  | b :: bs, prev, hprev, hall => by
    have hb : b.length = 16 := hall b (by simp)
    have hxlen : (xorBytes b prev).length = 16 := by
      rw [length_xorBytes, hb, hprev]; rfl
    have hclen := C.length_encryptBlock key _ hxlen
    simp only [cbcEncryptBlocks, cbcDecryptBlocks]
    rw [C.decryptBlock_encryptBlock key _ hxlen,
      xorBytes_cancel_right b prev (by rw [hb, hprev]),
      cbcDecryptBlocks_cbcEncryptBlocks C key bs _ hclen
        (fun x hx => hall x (by simp [hx]))]

theorem flatten_length_uniform :
    ∀ (blocks : List Bytes), (∀ b ∈ blocks, b.length = 16) →
      blocks.flatten.length = 16 * blocks.length
  | [], _ => rfl
  | b :: bs, h => by
    rw [List.flatten_cons, List.length_append, h b (by simp),
      flatten_length_uniform bs (fun x hx => h x (by simp [hx]))]
    simp [Nat.mul_succ, Nat.mul_add]
    omega

theorem length_cbcEncryptBlocks (C : BlockCipher) (key : Bytes) :
    ∀ (blocks : List Bytes) (prev : Bytes),
      (cbcEncryptBlocks C key prev blocks).length = blocks.length
  | [], _ => rfl
  | _ :: bs, _ => by
    simp only [cbcEncryptBlocks, List.length_cons]
    rw [length_cbcEncryptBlocks C key bs]

/-- Everything together: the ciphertext bytes produced by `subtle.encrypt`
    decrypt back to the exact plaintext through `subtle.decrypt`. -/
theorem subtleDecrypt_subtleEncrypt (C : BlockCipher) (iv key msg ct : Bytes)
    (hiv : iv.length = 16)
    (hct : subtleEncrypt C iv key msg = some ct) :
    subtleDecrypt C iv key ct = some msg := by
  rw [subtleEncrypt, if_pos hiv] at hct
  have hspec := chunks16_of_mod (pkcs7pad msg).length (pkcs7pad msg) le_rfl (pkcs7pad_mod msg)
  have hblocks : ∀ b ∈ chunks 16 (pkcs7pad msg), b.length = 16 := hspec.1
  have hctdef : ct = (cbcEncryptBlocks C key iv (chunks 16 (pkcs7pad msg))).flatten :=
    (Option.some.inj hct).symm
  have hctblocks : ∀ c ∈ cbcEncryptBlocks C key iv (chunks 16 (pkcs7pad msg)), c.length = 16 :=
    cbcEncryptBlocks_length C key _ iv hiv hblocks
  have hchunks : chunks 16 ct = cbcEncryptBlocks C key iv (chunks 16 (pkcs7pad msg)) := by
    rw [hctdef]; exact chunks_flatten _ hctblocks
  have hblocksne : chunks 16 (pkcs7pad msg) ≠ [] := by
    intro hc
    apply pkcs7pad_ne_nil msg
    have := hspec.2
    rw [hc] at this
    simpa using this.symm
  have hctlen : ct.length = 16 * (chunks 16 (pkcs7pad msg)).length := by
    rw [hctdef, flatten_length_uniform _ hctblocks, length_cbcEncryptBlocks]
  have hctne : ct ≠ [] := by
    intro hc
    have h0 : (0 : Nat) = 16 * (chunks 16 (pkcs7pad msg)).length := by
      rw [← hctlen, hc]; rfl
    have hpos : 0 < (chunks 16 (pkcs7pad msg)).length := List.length_pos.mpr hblocksne
    omega
  have hctmod : ct.length % 16 = 0 := by rw [hctlen]; omega
  rw [subtleDecrypt, if_pos ⟨hiv, hctne, hctmod⟩, hchunks,
    cbcDecryptBlocks_cbcEncryptBlocks C key _ iv hiv hblocks, hspec.2,
    pkcs7unpad_pkcs7pad]

theorem importKeyAesCbc_32 (k : Bytes) (h : k.length = 32) :
    importKeyAesCbc k = some k := by
  rw [importKeyAesCbc, if_pos (Or.inr (Or.inr h))]

/-- Unfolding of `encrypt` under the hypotheses the code establishes at run
    time (a 16-byte IV and a well-formed 256-bit hex key). -/
theorem encrypt_eq_some (C : BlockCipher) (iv msg keyBytes : Bytes) (hp : List Char)
    (hiv : iv.length = 16)
    (hkey : HexEncoder.parse hp = some keyBytes) (hklen : keyBytes.length = 32) :
    encrypt C iv msg hp = some (HexEncoder.stringify iv ++
      HexEncoder.stringify (cbcEncryptBlocks C keyBytes iv (chunks 16 (pkcs7pad msg))).flatten) := by
  rw [encrypt]
  simp only [hkey, Option.bind_eq_bind, Option.some_bind, importKeyAesCbc_32 keyBytes hklen,
    subtleEncrypt, if_pos hiv]

theorem ciphertext_lt (C : BlockCipher) (iv msg keyBytes : Bytes)
    (hivlt : ∀ x ∈ iv, x < 256) (hmsg : ∀ x ∈ msg, x < 256) :
    ∀ x ∈ (cbcEncryptBlocks C keyBytes iv (chunks 16 (pkcs7pad msg))).flatten, x < 256 := by
  have hspec := chunks16_of_mod (pkcs7pad msg).length (pkcs7pad msg) le_rfl (pkcs7pad_mod msg)
  have hblt : ∀ b ∈ chunks 16 (pkcs7pad msg), ∀ x ∈ b, x < 256 := by
    intro b hb x hx
    have hxmem : x ∈ (chunks 16 (pkcs7pad msg)).flatten :=
      List.mem_flatten.mpr ⟨b, hb, hx⟩
    rw [hspec.2] at hxmem
    exact pkcs7pad_lt msg hmsg x hxmem
  intro x hx
  obtain ⟨c, hc, hxc⟩ := List.mem_flatten.mp hx
  exact cbcEncryptBlocks_lt C keyBytes _ iv hivlt hblt c hc x hxc

/-- C1 — **Round trip**: for every plaintext (as the byte sequence its UTF-8
    encoding yields) and every well-formed 256-bit hex key, decrypting the
    envelope produced by `encrypt` with the same key returns exactly the
    plaintext bytes.  The fresh random IV of `encrypt` is the explicit `iv`
    argument; `TextEncoder`/`TextDecoder` form a bijection between strings
    and their UTF-8 byte sequences, so the byte-level identity proved here is
    the string-level round trip of the claim. -/
theorem decrypt_encrypt_round_trip (C : BlockCipher) (iv msg keyBytes : Bytes)
    (hp env : List Char)
    (hiv : iv.length = 16) (hivlt : ∀ x ∈ iv, x < 256) (hmsg : ∀ x ∈ msg, x < 256)
    (hkey : HexEncoder.parse hp = some keyBytes) (hklen : keyBytes.length = 32)
    (henv : encrypt C iv msg hp = some env) :
    decrypt C env hp = some msg := by
  have henc := encrypt_eq_some C iv msg keyBytes hp hiv hkey hklen
  rw [henv] at henc
  have henvdef := (Option.some.inj henc).symm
  set ct := (cbcEncryptBlocks C keyBytes iv (chunks 16 (pkcs7pad msg))).flatten with hctdef
  have hivstr : (HexEncoder.stringify iv).length = 32 := by
    rw [length_stringify, hiv]
  have htake : env.take 32 = HexEncoder.stringify iv := by
    rw [← henvdef, List.take_left' hivstr]
  have hdrop : env.drop 32 = HexEncoder.stringify ct := by
    rw [← henvdef, List.drop_left' hivstr]
  have hctlt : ∀ x ∈ ct, x < 256 := ciphertext_lt C iv msg keyBytes hivlt hmsg
  have hsub : subtleEncrypt C iv keyBytes msg = some ct := by
    rw [subtleEncrypt, if_pos hiv]
  rw [decrypt, htake, hdrop, parse_stringify iv hivlt, parse_stringify ct hctlt]
  simp only [Option.bind_eq_bind, Option.some_bind, hkey, importKeyAesCbc_32 keyBytes hklen]
  exact subtleDecrypt_subtleEncrypt C iv keyBytes msg ct hiv hsub

/-- Closed instance backing `decrypt_encrypt_round_trip` (C1): the identities
    are run on explicit inputs with the concrete `xorCipher` instance. -/
theorem decrypt_encrypt_round_trip_witness :
    decrypt xorCipher
      ((encrypt xorCipher (List.replicate 16 0) [104, 105]
        (String.data ("0000000000000000000000000000000000000000000000000000000000000000"))).getD [])
      (String.data ("0000000000000000000000000000000000000000000000000000000000000000")) =
      some [104, 105] := by
  apply decrypt_encrypt_round_trip xorCipher (List.replicate 16 0) [104, 105]
    (List.replicate 32 0)
  · decide
  · decide
  · decide
  · decide
  · decide
  · decide

/-- Concrete demonstration inputs: the all-zero 256-bit key (64 hex chars),
    an all-zero IV and the bytes of "hi". -/
def demoKeyHex : List Char := List.replicate 64 '0'

def demoIv : Bytes := List.replicate 16 0

theorem subtleEncrypt_shape (C : BlockCipher) (iv key msg ct : Bytes)
    (hiv : iv.length = 16) (hct : subtleEncrypt C iv key msg = some ct) :
    ct ≠ [] ∧ ct.length % 16 = 0 := by
  rw [subtleEncrypt, if_pos hiv] at hct
  have hspec := chunks16_of_mod (pkcs7pad msg).length (pkcs7pad msg) le_rfl (pkcs7pad_mod msg)
  have hctdef : ct = (cbcEncryptBlocks C key iv (chunks 16 (pkcs7pad msg))).flatten :=
    (Option.some.inj hct).symm
  have hctblocks : ∀ c ∈ cbcEncryptBlocks C key iv (chunks 16 (pkcs7pad msg)), c.length = 16 :=
    cbcEncryptBlocks_length C key _ iv hiv hspec.1
  have hblocksne : chunks 16 (pkcs7pad msg) ≠ [] := by
    intro hc
    apply pkcs7pad_ne_nil msg
    have := hspec.2
    rw [hc] at this
    simpa using this.symm
  have hctlen : ct.length = 16 * (chunks 16 (pkcs7pad msg)).length := by
    rw [hctdef, flatten_length_uniform _ hctblocks, length_cbcEncryptBlocks]
  constructor
  · intro hc
    have h0 : (0 : Nat) = 16 * (chunks 16 (pkcs7pad msg)).length := by
      rw [← hctlen, hc]; rfl
    have hpos : 0 < (chunks 16 (pkcs7pad msg)).length := List.length_pos.mpr hblocksne
    omega
  · rw [hctlen]; omega

/-- C2 — **Wire format**: `encrypt` returns the hex encoding of the 16-byte
    IV immediately followed by the hex encoding of the AES-CBC ciphertext
    with no separator, so the IV segment is exactly 32 hex characters, and
    `decrypt` splits exactly the first 32 characters of the envelope as the
    IV and the remainder as the ciphertext (both recover the original byte
    strings). -/
theorem envelope_wire_format (C : BlockCipher) (iv msg keyBytes : Bytes)
    (hp env : List Char)
    (hiv : iv.length = 16) (hivlt : ∀ x ∈ iv, x < 256) (hmsg : ∀ x ∈ msg, x < 256)
    (hkey : HexEncoder.parse hp = some keyBytes) (hklen : keyBytes.length = 32)
    (henv : encrypt C iv msg hp = some env) :
    ∃ ct, subtleEncrypt C iv keyBytes msg = some ct ∧
      env = HexEncoder.stringify iv ++ HexEncoder.stringify ct ∧
      (HexEncoder.stringify iv).length = 32 ∧
      env.take 32 = HexEncoder.stringify iv ∧
      env.drop 32 = HexEncoder.stringify ct ∧
      HexEncoder.parse (env.take 32) = some iv ∧
      HexEncoder.parse (env.drop 32) = some ct := by
  have henc := encrypt_eq_some C iv msg keyBytes hp hiv hkey hklen
  rw [henv] at henc
  have henvdef := (Option.some.inj henc).symm
  set ct := (cbcEncryptBlocks C keyBytes iv (chunks 16 (pkcs7pad msg))).flatten with hctdef
  have hivstr : (HexEncoder.stringify iv).length = 32 := by
    rw [length_stringify, hiv]
  have htake : env.take 32 = HexEncoder.stringify iv := by
    rw [← henvdef, List.take_left' hivstr]
  have hdrop : env.drop 32 = HexEncoder.stringify ct := by
    rw [← henvdef, List.drop_left' hivstr]
  have hctlt : ∀ x ∈ ct, x < 256 := ciphertext_lt C iv msg keyBytes hivlt hmsg
  refine ⟨ct, by rw [subtleEncrypt, if_pos hiv], henvdef.symm, hivstr, htake, hdrop, ?_, ?_⟩
  · rw [htake]; exact parse_stringify iv hivlt
  · rw [hdrop]; exact parse_stringify ct hctlt

/-- Closed instance backing `envelope_wire_format` (C2) on explicit inputs. -/
theorem envelope_wire_format_witness :
    ∃ ct, subtleEncrypt xorCipher demoIv (List.replicate 32 0) [104, 105] = some ct ∧
      (encrypt xorCipher demoIv [104, 105] demoKeyHex).getD [] =
        HexEncoder.stringify demoIv ++ HexEncoder.stringify ct ∧
      (HexEncoder.stringify demoIv).length = 32 ∧
      ((encrypt xorCipher demoIv [104, 105] demoKeyHex).getD []).take 32 =
        HexEncoder.stringify demoIv ∧
      ((encrypt xorCipher demoIv [104, 105] demoKeyHex).getD []).drop 32 =
        HexEncoder.stringify ct ∧
      HexEncoder.parse (((encrypt xorCipher demoIv [104, 105] demoKeyHex).getD []).take 32) =
        some demoIv ∧
      HexEncoder.parse (((encrypt xorCipher demoIv [104, 105] demoKeyHex).getD []).drop 32) =
        some ct :=
  envelope_wire_format xorCipher demoIv [104, 105] (List.replicate 32 0) demoKeyHex
    ((encrypt xorCipher demoIv [104, 105] demoKeyHex).getD [])
    (by decide) (by decide) (by decide) (by decide) (by decide) (by rfl)

/-- C3 (amended) — **Wrong key is gated by padding only**: decrypting a
    well-formed envelope with a different (well-formed) key performs no key
    authentication at all; its outcome is exactly the PKCS#7 unpadding of the
    CBC decryption of the ciphertext under the wrong key.  It therefore fails
    precisely when that padding check fails, and may also succeed and return
    garbage bytes (CBC is unauthenticated, and the `TextDecoder` used on the
    result is non-strict). -/
theorem wrong_key_gated_by_padding_only (C : BlockCipher) (iv msg kb1 kb2 : Bytes)
    (hp1 hp2 env : List Char)
    (hiv : iv.length = 16) (hivlt : ∀ x ∈ iv, x < 256) (hmsg : ∀ x ∈ msg, x < 256)
    (hkey1 : HexEncoder.parse hp1 = some kb1) (hklen1 : kb1.length = 32)
    (hkey2 : HexEncoder.parse hp2 = some kb2) (hklen2 : kb2.length = 32)
    (henv : encrypt C iv msg hp1 = some env) :
    ∃ ct, subtleEncrypt C iv kb1 msg = some ct ∧
      decrypt C env hp2 =
        pkcs7unpad (cbcDecryptBlocks C kb2 iv (chunks 16 ct)).flatten := by
  obtain ⟨ct, hct, _, _, htake, hdrop, hpiv, hpct⟩ :=
    envelope_wire_format C iv msg kb1 hp1 env hiv hivlt hmsg hkey1 hklen1 henv
  obtain ⟨hctne, hctmod⟩ := subtleEncrypt_shape C iv kb1 msg ct hiv hct
  refine ⟨ct, hct, ?_⟩
  rw [decrypt, hpiv, hpct]
  simp only [Option.bind_eq_bind, Option.some_bind, hkey2, importKeyAesCbc_32 kb2 hklen2]
  rw [subtleDecrypt, if_pos ⟨hiv, hctne, hctmod⟩]

/-- Closed instance backing `wrong_key_gated_by_padding_only` (C3). -/
theorem wrong_key_gated_by_padding_only_witness :
    ∃ ct, subtleEncrypt xorCipher demoIv (List.replicate 32 0)
        (List.replicate 14 0 ++ [1]) = some ct ∧
      decrypt xorCipher
        ((encrypt xorCipher demoIv (List.replicate 14 0 ++ [1]) demoKeyHex).getD [])
        ('0' :: '3' :: List.replicate 62 '0') =
        pkcs7unpad
          (cbcDecryptBlocks xorCipher (3 :: List.replicate 31 0) demoIv (chunks 16 ct)).flatten := by
  have h := wrong_key_gated_by_padding_only xorCipher demoIv
    (List.replicate 14 0 ++ [1]) (List.replicate 32 0) (3 :: List.replicate 31 0)
    demoKeyHex ('0' :: '3' :: List.replicate 62 '0')
    ((encrypt xorCipher demoIv (List.replicate 14 0 ++ [1]) demoKeyHex).getD [])
    (by decide) (by decide) (by decide) (by decide) (by decide) (by decide) (by decide)
    (by rfl)
  obtain ⟨ct, hct, hdec⟩ := h
  exact ⟨ct, hct, hdec⟩

/-- C3 (counterexample) — the claim as stated is false: with a well-formed
    envelope produced under one key, decryption under a *different* key can
    succeed and return garbage bytes that a caller would treat as a
    successful decryption.  Run on the concrete `xorCipher` instance of the
    `BlockCipher` interface: the plaintext has 15 bytes ending in `1`, the
    two keys differ in their first byte, and decryption under the wrong key
    returns 14 garbage bytes. -/
theorem wrong_key_returns_value_counterexample :
    ('0' :: '3' :: List.replicate 62 '0') ≠ demoKeyHex ∧
    (encrypt xorCipher demoIv (List.replicate 14 0 ++ [1]) demoKeyHex).bind
      (fun env => decrypt xorCipher env ('0' :: '3' :: List.replicate 62 '0')) =
      some (List.replicate 14 3) ∧
    List.replicate 14 3 ≠ List.replicate 14 0 ++ [1] := by
  decide

/-! ## Claim C8 — strictness of `HexEncoder.parse` -/

/-- Whether some aligned two-character group of the string is rejected
    (`NaN`) by `parseInt(·, 16)`. -/
def hasNaNPair : List Char → Bool
  | c₁ :: c₂ :: rest => (jsParseIntHex2 c₁ c₂).isNone || hasNaNPair rest
  | _ => false

theorem parseHexPairs_none : ∀ (s : List Char), s.length % 2 = 0 →
    (parseHexPairs s = none ↔ hasNaNPair s = true)
  | [], _ => by simp [parseHexPairs, hasNaNPair]
  | [c], h => by simp at h
  | c₁ :: c₂ :: rest, h => by
    have hr : rest.length % 2 = 0 := by
      simp only [List.length_cons] at h
      omega
    have ih := parseHexPairs_none rest hr
    cases hp : jsParseIntHex2 c₁ c₂ with
    | none => simp [parseHexPairs, hasNaNPair, hp]
    | some v =>
      cases hrec : parseHexPairs rest with
      | none =>
        simp [parseHexPairs, hasNaNPair, hp, hrec]
        exact ih.mp hrec
      | some bs =>
        simp [parseHexPairs, hasNaNPair, hp, hrec]
        cases hnan : hasNaNPair rest with
        | false => rfl
        | true =>
          rw [ih.mpr hnan] at hrec
          exact Option.noConfusion hrec

/-- C8 (amended) — **Strictness of hex decoding, as implemented**:
    `HexEncoder.parse` fails exactly when the input has odd length or some
    aligned two-character group is rejected by `parseInt(·, 16)`.  Because
    `parseInt` parses the longest valid prefix, a group whose *first*
    character is a hex digit is accepted even when its second character is
    not a hex digit, so the claim "any non-hex-digit character fails" does
    not hold of the code. -/
theorem hex_parse_failure_characterization (s : List Char) :
    HexEncoder.parse s = none ↔ s.length % 2 ≠ 0 ∨ hasNaNPair s = true := by
  rw [HexEncoder.parse]
  by_cases hpar : s.length % 2 = 0
  · rw [if_neg (by omega)]
    rw [parseHexPairs_none s hpar]
    simp [hpar]
  · simp [hpar]

/-- C8 (counterexample) — the input `"1g"` has even length and contains the
    non-hex character `g`, yet `HexEncoder.parse` succeeds and returns the
    byte `0x01` (JS `parseInt("1g", 16)` is `1`, not `NaN`). -/
theorem hex_parse_accepts_nonhex_counterexample :
    hexDigitVal 'g' = none ∧ 'g' ∈ String.data "1g" ∧
      HexEncoder.parse (String.data "1g") = some [1] := by
  decide

/-! ## PBKDF2-HMAC-SHA-256 (src/lib/staticrypt.js, `hashPassword`)

`hashPassword` calls `subtle.importKey("raw", utf8(password), "PBKDF2", …)`
and `subtle.deriveBits({name: "PBKDF2", hash: "SHA-256", salt: utf8(salt),
iterations: 600000}, key, 256)`.  The named standard algorithms are
implemented concretely: SHA-256 per FIPS 180-4, HMAC per RFC 2104 and PBKDF2
per RFC 8018 §5.2. -/

/-- Truncation to a 32-bit word. -/
def w32 (n : Nat) : Nat := n % 4294967296

/-- 32-bit right rotation (inputs are 32-bit words). -/
def rotr32 (n x : Nat) : Nat := w32 ((x >>> n) ||| (x <<< (32 - n)))

/-- 32-bit complement (inputs are 32-bit words). -/
def not32 (x : Nat) : Nat := x ^^^ 4294967295

def bigSigma0 (x : Nat) : Nat := rotr32 2 x ^^^ rotr32 13 x ^^^ rotr32 22 x

def bigSigma1 (x : Nat) : Nat := rotr32 6 x ^^^ rotr32 11 x ^^^ rotr32 25 x

def smallSigma0 (x : Nat) : Nat := rotr32 7 x ^^^ rotr32 18 x ^^^ (x >>> 3)

def smallSigma1 (x : Nat) : Nat := rotr32 17 x ^^^ rotr32 19 x ^^^ (x >>> 10)

def chFn (x y z : Nat) : Nat := (x &&& y) ^^^ (not32 x &&& z)

def majFn (x y z : Nat) : Nat := (x &&& y) ^^^ (x &&& z) ^^^ (y &&& z)

/-- The SHA-256 round constants (FIPS 180-4 §4.2.2). -/
def sha256K : List Nat :=
  [
   1116352408, 1899447441, 3049323471, 3921009573, 961987163,
   1508970993, 2453635748, 2870763221, 3624381080, 310598401,
   607225278, 1426881987, 1925078388, 2162078206, 2614888103,
   3248222580, 3835390401, 4022224774, 264347078, 604807628,
   770255983, 1249150122, 1555081692, 1996064986, 2554220882,
   2821834349, 2952996808, 3210313671, 3336571891, 3584528711,
   113926993, 338241895, 666307205, 773529912, 1294757372,
   1396182291, 1695183700, 1986661051, 2177026350, 2456956037,
   2730485921, 2820302411, 3259730800, 3345764771, 3516065817,
   3600352804, 4094571909, 275423344, 430227734, 506948616,
   659060556, 883997877, 958139571, 1322822218, 1537002063,
   1747873779, 1955562222, 2024104815, 2227730452, 2361852424,
   2428436474, 2756734187, 3204031479, 3329325298]

/-- The SHA-256 initial hash value (FIPS 180-4 §5.3.3). -/
def sha256H0 : List Nat :=
  [
   1779033703, 3144134277, 1013904242, 2773480762,
   1359893119, 2600822924, 528734635, 1541459225]

/-- Big-endian byte serialization of `v` on `n` bytes. -/
def bytesBE : Nat → Nat → Bytes
  | 0, _ => []
  | n + 1, v => bytesBE n (v / 256) ++ [v % 256]

/-- Big-endian 32-bit words of a byte string. -/
def bytesToWordsBE : Bytes → List Nat
  | b0 :: b1 :: b2 :: b3 :: rest =>
    (((b0 * 256 + b1) * 256 + b2) * 256 + b3) :: bytesToWordsBE rest
  | _ => []

/-- SHA-256 message padding (FIPS 180-4 §5.1.1). -/
def sha256pad (msg : Bytes) : Bytes :=
  msg ++ [128] ++ List.replicate ((119 - msg.length % 64) % 64) 0 ++
    bytesBE 8 (msg.length * 8)

/-- One step of the message-schedule extension (appends `W[t]` for the next
    `t`, computed from the last 16 entries). -/
def sha256ExtendStep (w : List Nat) : Nat :=
  w32 (smallSigma1 (w.getD (w.length - 2) 0) + w.getD (w.length - 7) 0 +
    smallSigma0 (w.getD (w.length - 15) 0) + w.getD (w.length - 16) 0)

def sha256Extend : Nat → List Nat → List Nat
  | 0, w => w
  | n + 1, w => sha256Extend n (w ++ [sha256ExtendStep w])

/-- One SHA-256 round on the 8-word working state. -/
def sha256Round (st : List Nat) (w k : Nat) : List Nat :=
  match st with
  | [a, b, c, d, e, f, g, h] =>
    let t1 := w32 (h + bigSigma1 e + chFn e f g + k + w)
    let t2 := w32 (bigSigma0 a + majFn a b c)
    [w32 (t1 + t2), a, b, c, w32 (d + t1), e, f, g]
  | st => st

/-- Compression of a 64-byte block into the running hash state. -/
def sha256Compress (st : List Nat) (block : Bytes) : List Nat :=
  let w := sha256Extend 48 (bytesToWordsBE block)
  let st' := (w.zip sha256K).foldl (fun s p => sha256Round s p.1 p.2) st
  List.zipWith (fun x y => w32 (x + y)) st st'

/-- SHA-256 of a byte string (FIPS 180-4). -/
def sha256 (msg : Bytes) : Bytes :=
  (((chunks 64 (sha256pad msg)).foldl sha256Compress sha256H0).map (bytesBE 4)).flatten

/-- HMAC-SHA-256 (RFC 2104; block size 64 bytes). -/
def hmacSha256 (key msg : Bytes) : Bytes :=
  let k1 := if 64 < key.length then sha256 key else key
  let k0 := k1 ++ List.replicate (64 - k1.length) 0
  sha256 ((k0.map (fun b => b ^^^ 92)) ++ sha256 ((k0.map (fun b => b ^^^ 54)) ++ msg))

/-- The `U₂ ⊕ … ⊕ U_c` tail of one PBKDF2 block (RFC 8018 §5.2, function
    `F`): `u` is the previous `U_i`, `acc` the XOR accumulator. -/
def pbkdf2Go (password : Bytes) : Nat → Bytes → Bytes → Bytes
  | 0, _, acc => acc
  | n + 1, u, acc =>
    let u' := hmacSha256 password u
    pbkdf2Go password n u' (xorBytes acc u')

/-- One output block `T_i` of PBKDF2 (RFC 8018 §5.2). -/
def pbkdf2Block (password salt : Bytes) (c i : Nat) : Bytes :=
  let u1 := hmacSha256 password (salt ++ bytesBE 4 i)
  pbkdf2Go password (c - 1) u1 u1

/-- PBKDF2 with HMAC-SHA-256 as PRF (RFC 8018 §5.2). -/
def pbkdf2HmacSha256 (password salt : Bytes) (c dkLen : Nat) : Bytes :=
  ((List.range ((dkLen + 31) / 32)).map
    (fun i => pbkdf2Block password salt c (i + 1))).flatten.take dkLen

/-- UTF-8 encoding of one character (RFC 3629), modelling the
    `TextEncoder`. -/
def utf8EncodeCharNat (c : Char) : Bytes :=
  let n := c.toNat
  if n < 128 then [n]
  else if n < 2048 then [192 + n / 64, 128 + n % 64]
  else if n < 65536 then [224 + n / 4096, 128 + n / 64 % 64, 128 + n % 64]
  else [240 + n / 262144, 128 + n / 4096 % 64, 128 + n / 64 % 64, 128 + n % 64]

/-- The byte sequence the `TextEncoder` produces for a character sequence. -/
def utf8EncodeList (cs : List Char) : Bytes := (cs.map utf8EncodeCharNat).flatten

/-- The byte sequence the `TextEncoder` produces for a string. -/
def utf8Encode (s : String) : Bytes := utf8EncodeList s.data

/-- `subtle.deriveBits` with PBKDF2 parameters, as invoked by the code. -/
def deriveBitsPbkdf2 (saltBytes : Bytes) (iterations : Nat) (keyBytes : Bytes)
    (bits : Nat) : Bytes :=
  pbkdf2HmacSha256 keyBytes saltBytes iterations (bits / 8)

/-- `cryptoEngine.hashPassword` (src/lib/staticrypt.js lines 83-104): PBKDF2
    with SHA-256, 600000 iterations, over the UTF-8 bytes of password and
    salt, 256 bits of output, hex-encoded. -/
def hashPassword (password salt : String) : List Char :=
  HexEncoder.stringify
    (deriveBitsPbkdf2 (utf8Encode salt) 600000 (utf8Encode password) 256)

/-! ### Output length of the derivation chain -/

theorem length_bytesBE : ∀ (n v : Nat), (bytesBE n v).length = n
  | 0, _ => rfl
  | n + 1, v => by
    simp [bytesBE, length_bytesBE n (v / 256)]

theorem length_sha256Round (st : List Nat) (w k : Nat) :
    (sha256Round st w k).length = st.length := by
  unfold sha256Round
  split
  · rfl
  · rfl

theorem length_foldl_sha256Round (l : List (Nat × Nat)) :
    ∀ st : List Nat,
      (l.foldl (fun s p => sha256Round s p.1 p.2) st).length = st.length := by
  induction l with
  | nil => intro st; rfl
  | cons p l ih =>
    intro st
    rw [List.foldl_cons, ih, length_sha256Round]

theorem length_sha256Compress (st : List Nat) (block : Bytes) :
    (sha256Compress st block).length = st.length := by
  rw [sha256Compress]
  simp only [List.length_zipWith, length_foldl_sha256Round]
  omega

theorem length_foldl_sha256Compress (blocks : List Bytes) :
    ∀ st : List Nat, (blocks.foldl sha256Compress st).length = st.length := by
  induction blocks with
  | nil => intro st; rfl
  | cons b bs ih =>
    intro st
    rw [List.foldl_cons, ih, length_sha256Compress]

theorem length_sha256 (msg : Bytes) : (sha256 msg).length = 32 := by
  rw [sha256]
  have h8 : ((chunks 64 (sha256pad msg)).foldl sha256Compress sha256H0).length = 8 :=
    length_foldl_sha256Compress _ _
  generalize hst : (chunks 64 (sha256pad msg)).foldl sha256Compress sha256H0 = st at h8
  clear hst
  induction st with
  | nil => simp at h8
  | cons x xs ih =>
    by_cases hxs : xs.length = 7
    · clear ih
      rcases xs with _ | ⟨a, xs⟩ <;> simp_all
      rcases xs with _ | ⟨b, xs⟩ <;> simp_all
      rcases xs with _ | ⟨c, xs⟩ <;> simp_all
      rcases xs with _ | ⟨d, xs⟩ <;> simp_all
      rcases xs with _ | ⟨e, xs⟩ <;> simp_all
      rcases xs with _ | ⟨f, xs⟩ <;> simp_all
      rcases xs with _ | ⟨g, xs⟩ <;> simp_all [length_bytesBE]
    · simp at h8; omega

theorem length_hmacSha256 (key msg : Bytes) : (hmacSha256 key msg).length = 32 :=
  length_sha256 _

theorem length_pbkdf2Go (password : Bytes) :
    ∀ (n : Nat) (u acc : Bytes), acc.length = 32 →
      (pbkdf2Go password n u acc).length = 32
  | 0, _, _, h => h
  | n + 1, u, acc, h => by
    rw [pbkdf2Go]
    apply length_pbkdf2Go
    rw [length_xorBytes, h, length_hmacSha256]
    rfl

theorem length_pbkdf2Block (password salt : Bytes) (c i : Nat) :
    (pbkdf2Block password salt c i).length = 32 := by
  rw [pbkdf2Block]
  exact length_pbkdf2Go password _ _ _ (length_hmacSha256 _ _)

theorem length_pbkdf2HmacSha256_32 (password salt : Bytes) (c : Nat) :
    (pbkdf2HmacSha256 password salt c 32).length = 32 := by
  rw [pbkdf2HmacSha256]
  simp [List.range_succ, length_pbkdf2Block]

/-- C4 — **Key derivation**: `hashPassword` is a deterministic pure function
    of `(password, salt)`; it computes PBKDF2 with SHA-256 and exactly
    600000 iterations over the UTF-8 bytes of password and salt, producing a
    256-bit key (64 hex characters) as a hex string; identical inputs yield
    identical output. -/
theorem hashPassword_spec (password salt password' salt' : String)
    (hpw : password = password') (hsalt : salt = salt') :
    hashPassword password salt = hashPassword password' salt' ∧
    hashPassword password salt =
      HexEncoder.stringify
        (pbkdf2HmacSha256 (utf8Encode password) (utf8Encode salt) 600000 32) ∧
    (hashPassword password salt).length = 64 := by
  subst hpw
  subst hsalt
  refine ⟨rfl, rfl, ?_⟩
  rw [hashPassword, length_stringify, deriveBitsPbkdf2, length_pbkdf2HmacSha256_32]

/-- Closed instance backing `hashPassword_spec` (C4). -/
theorem hashPassword_spec_witness :
    hashPassword "pw" "s1" = hashPassword "pw" "s1" ∧
    hashPassword "pw" "s1" =
      HexEncoder.stringify
        (pbkdf2HmacSha256 (utf8Encode "pw") (utf8Encode "s1") 600000 32) ∧
    (hashPassword "pw" "s1").length = 64 :=
  hashPassword_spec "pw" "s1" "pw" "s1" rfl rfl

/-! ## ContentSegmenter (src/cli/index.js, `processHtmlContent`) -/

/-- Split `text` around the first occurrence of `pat`: `some (pre, post)`
    with `text = pre ++ pat ++ post` and the occurrence leftmost, or `none`
    when `pat` does not occur in `text`. -/
def splitFirst (pat : List Char) : List Char → Option (List Char × List Char)
  | [] => if pat = [] then some ([], []) else none
  | c :: rest =>
    if pat.isPrefixOf (c :: rest) then some ([], (c :: rest).drop pat.length)
    else
      match splitFirst pat rest with
      | some (pre, post) => some (c :: pre, post)
      | none => none

theorem splitFirst_sound (pat : List Char) :
    ∀ (text pre post : List Char), splitFirst pat text = some (pre, post) →
      text = pre ++ pat ++ post := by
  intro text
  induction text with
  | nil =>
    intro pre post h
    rw [splitFirst] at h
    by_cases hp : pat = []
    · rw [if_pos hp] at h
      obtain ⟨h1, h2⟩ := Prod.mk.injEq _ _ _ _ ▸ Option.some.inj h
      subst hp
      rw [← h1, ← h2]
      rfl
    · rw [if_neg hp] at h
      exact Option.noConfusion h
  | cons c rest ih =>
    intro pre post h
    rw [splitFirst] at h
    by_cases hp : pat.isPrefixOf (c :: rest)
    · rw [if_pos hp] at h
      obtain ⟨h1, h2⟩ := Prod.mk.injEq _ _ _ _ ▸ Option.some.inj h
      obtain ⟨t, ht⟩ := List.isPrefixOf_iff_prefix.mp hp
      rw [← h1, ← h2, List.nil_append, ← ht, List.drop_left]
    · rw [if_neg hp] at h
      cases hrec : splitFirst pat rest with
      | none => rw [hrec] at h; exact Option.noConfusion h
      | some pp =>
        rw [hrec] at h
        obtain ⟨pre', post'⟩ := pp
        obtain ⟨h1, h2⟩ := Prod.mk.injEq _ _ _ _ ▸ Option.some.inj h
        rw [← h1, ← h2]
        have := ih pre' post' hrec
        simp [this]

/-- The begin marker of a protected region. -/
def startMarker : List Char := ("<!--staticrypt-start-->").data

/-- The end marker of a protected region. -/
def endMarker : List Char := ("<!--staticrypt-end-->").data

/-- JS `String.prototype.trim`, applied to each captured fragment. -/
def jsTrim (s : List Char) : List Char :=
  ((s.dropWhile jsWhitespaceChar).reverse.dropWhile jsWhitespaceChar).reverse

/-- One `{id, content}` record of the serialized sections array. -/
structure ProtectedSection where
  id : List Char
  content : List Char
deriving DecidableEq

/-- The placeholder markup substituted for a marked region
    (src/cli/index.js lines 211-216). -/
def placeholderHtml (id : List Char) : List Char :=
  ("<div data-staticrypt-id=\"").data ++ id ++
    ("\" class=\"staticrypt-placeholder\">\n                <div class=\"staticrypt-password-prompt\">\n                    <p>此内容受密码保护</p>\n                    <button onclick=\"staticrypt.showPasswordPrompt(\x27").data ++
    id ++ ("\x27)\">点击查看内容</button>\n                </div>\n            </div>").data

/-- The global-replace loop of `processHtmlContent` (src/cli/index.js lines
    206-218): the non-greedy pattern
    `<!--staticrypt-start-->([\s\S]*?)<!--staticrypt-end-->` matches at the
    leftmost start marker followed by an end marker, captures up to the
    first end marker after it, substitutes the placeholder and resumes after
    the matched region; ids are `staticrypt-section-<n>` in encounter order.
    The fuel argument only drives the structural recursion; `html.length`
    always suffices. -/
def extractLoop : Nat → List Char → Nat → List Char × List ProtectedSection
  | 0, html, _ => (html, [])
  | fuel + 1, html, nextId =>
    match splitFirst startMarker html with
    | none => (html, [])
    | some (pre, rest) =>
      match splitFirst endMarker rest with
      | none => (html, [])
      | some (content, rest2) =>
        let id := ("staticrypt-section-").data ++ (Nat.repr nextId).data
        let tail := extractLoop fuel rest2 (nextId + 1)
        (pre ++ placeholderHtml id ++ tail.1, ⟨id, jsTrim content⟩ :: tail.2)

/-- The extraction half of `processHtmlContent`. -/
def extractSections (html : List Char) : List Char × List ProtectedSection :=
  extractLoop html.length html 0

/-- JSON escaping of one character, as performed by `JSON.stringify` on the
    id and content strings. -/
def jsonEscapeChar (c : Char) : List Char :=
  if c = '"' then ['\\', '"']
  else if c = '\\' then ['\\', '\\']
  else if c = '\x08' then ['\\', 'b']
  else if c = '\x09' then ['\\', 't']
  else if c = '\x0a' then ['\\', 'n']
  else if c = '\x0c' then ['\\', 'f']
  else if c = '\x0d' then ['\\', 'r']
  else if c.toNat < 32 then
    ['\\', 'u', '0', '0', hexDigitChar (c.toNat / 16), hexDigitChar (c.toNat % 16)]
  else [c]

def jsonEscape (s : List Char) : List Char := (s.map jsonEscapeChar).flatten

/-- `JSON.stringify` of one `{id, content}` record. -/
def jsonSection (s : ProtectedSection) : List Char :=
  ("\x7b\"id\":\"").data ++ jsonEscape s.id ++ ("\",\"content\":\"").data ++
    jsonEscape s.content ++ ("\"\x7d").data

def joinComma : List (List Char) → List Char
  | [] => []
  | [x] => x
  | x :: rest => x ++ ',' :: joinComma rest

/-- `JSON.stringify` of the sections array. -/
def jsonStringifySections (secs : List ProtectedSection) : List Char :=
  '[' :: joinComma (secs.map jsonSection) ++ [']']

/-- `processHtmlContent` (src/cli/index.js lines 201-224): returns
    `(encryptedContent, processedHtml)`. -/
def processHtmlContent (html : List Char) : List Char × List Char :=
  ((jsonStringifySections (extractSections html).2), (extractSections html).1)

/-- Whether the extraction pattern matches at all: a start marker followed
    by an end marker. -/
def hasMarkerPair (html : List Char) : Bool :=
  match splitFirst startMarker html with
  | none => false
  | some (_, rest) => (splitFirst endMarker rest).isSome

/-- Number of (possibly overlapping) occurrences of `pat` in `text`. -/
def countOcc (pat : List Char) : List Char → Nat
  | [] => 0
  | c :: rest => (if pat.isPrefixOf (c :: rest) then 1 else 0) + countOcc pat rest

theorem extractLoop_no_pair (fuel : Nat) (html : List Char) (nextId : Nat)
    (h : hasMarkerPair html = false) : extractLoop fuel html nextId = (html, []) := by
  cases fuel with
  | zero => rfl
  | succ fuel =>
    rw [extractLoop]
    rw [hasMarkerPair] at h
    cases hs : splitFirst startMarker html with
    | none => rfl
    | some p =>
      obtain ⟨pre, rest⟩ := p
      rw [hs] at h
      simp at h
      cases he : splitFirst endMarker rest with
      | none => simp [he]
      | some q => rw [he] at h; exact Option.noConfusion h

/-! ## Build-time encoder and decrypt mode (src/cli/index.js) -/

/-- JS `String.replace` with a plain string pattern: replaces the first
    occurrence only (the replacements used here contain no `$` patterns). -/
def replaceFirst (pat repl text : List Char) : List Char :=
  match splitFirst pat text with
  | none => text
  | some (pre, post) => pre ++ repl ++ post

/-- The `</head>` replacement injected by `encodeAndGenerateFile`
    (src/cli/index.js lines 256-369): the `window.staticryptConfig` script
    (note the *unquoted* JS object keys), the script tag and the styles.
    The four template variables are spliced between the literal parts. -/
def headInjection (encryptedMsg : List Char) (isRememberEnabled : Bool)
    (rememberDurationInDays : Int) (salt : List Char) : List Char :=
  ("\n        <script>\n            window.staticryptConfig = \x7b\n                staticryptEncryptedMsgUniqueVariableName: \"").data ++
    encryptedMsg ++
    ("\",\n                isRememberEnabled: ").data ++
    (toString isRememberEnabled).data ++
    (",\n                rememberDurationInDays: ").data ++
    (toString rememberDurationInDays).data ++
    (",\n                staticryptSaltUniqueVariableName: \"").data ++
    salt ++
    ("\"\n            \x7d;\n        </script>\n        <script src=\"staticrypt.js\"></script>\n        <style>\n            .staticrypt-placeholder \x7b\n                background: #f5f5f5;\n                border: 1px solid #ddd;\n                border-radius: 4px;\n                padding: 20px;\n                margin: 20px 0;\n                text-align: center;\n            \x7d\n            .staticrypt-password-prompt \x7b\n                display: flex;\n                flex-direction: column;\n                align-items: center;\n                gap: 10px;\n            \x7d\n            .staticrypt-password-prompt button \x7b\n                background: #4CAF50;\n                color: white;\n                border: none;\n                padding: 8px 16px;\n                border-radius: 4px;\n                cursor: pointer;\n                font-size: 14px;\n            \x7d\n            .staticrypt-password-prompt button:hover \x7b\n                filter: brightness(92%);\n            \x7d\n            .staticrypt-modal \x7b\n                display: none;\n                position: fixed;\n                top: 0;\n                left: 0;\n                width: 100%;\n                height: 100%;\n                background: rgba(0, 0, 0, 0.5);\n                z-index: 1000;\n            \x7d\n            .staticrypt-modal-content \x7b\n                position: relative;\n                background: white;\n                margin: 15% auto;\n                padding: 20px;\n                width: 80%;\n                max-width: 500px;\n                border-radius: 4px;\n                box-shadow: 0 2px 10px rgba(0, 0, 0, 0.1);\n            \x7d\n            .staticrypt-modal-close \x7b\n                position: absolute;\n                right: 10px;\n                top: 10px;\n                font-size: 20px;\n                cursor: pointer;\n                color: #666;\n            \x7d\n            .staticrypt-form \x7b\n                position: relative;\n                z-index: 1;\n                background: #ffffff;\n                padding: 20px;\n                text-align: center;\n            \x7d\n            .staticrypt-instructions \x7b\n                margin-bottom: 20px;\n            \x7d\n            .staticrypt-title \x7b\n                font-size: 1.5em;\n                margin-bottom: 10px;\n            \x7d\n            .staticrypt-password-container \x7b\n                position: relative;\n                margin-bottom: 15px;\n            \x7d\n            .staticrypt-password-container input \x7b\n                width: 100%;\n                padding: 10px;\n                border: 1px solid #ddd;\n                border-radius: 4px;\n                font-size: 14px;\n            \x7d\n            .staticrypt-remember \x7b\n                display: flex;\n                align-items: center;\n                margin-bottom: 15px;\n                justify-content: center;\n            \x7d\n            .staticrypt-remember input \x7b\n                margin-right: 8px;\n            \x7d\n            .staticrypt-decrypt-button \x7b\n                background: #4CAF50;\n                color: white;\n                border: none;\n                padding: 10px 20px;\n                border-radius: 4px;\n                cursor: pointer;\n                font-size: 14px;\n                width: 100%;\n            \x7d\n            .staticrypt-decrypt-button:hover \x7b\n                filter: brightness(92%);\n            \x7d\n        </style>\n    </head>").data

/-- The password modal markup appended before `</body>`
    (src/cli/index.js lines 372-400). -/
def modalHtml : List Char :=
  ("\n        <div id=\"staticrypt-modal\" class=\"staticrypt-modal\">\n            <div class=\"staticrypt-modal-content\">\n                <span class=\"staticrypt-modal-close\">&times;</span>\n                <div class=\"staticrypt-form\">\n                    <div class=\"staticrypt-instructions\">\n                        <p class=\"staticrypt-title\">密码保护</p>\n                        <p>请输入密码以查看受保护的内容</p>\n                    </div>\n                    <form id=\"staticrypt-modal-form\" action=\"#\" method=\"post\">\n                        <div class=\"staticrypt-password-container\">\n                            <input\n                                id=\"staticrypt-modal-password\"\n                                type=\"password\"\n                                name=\"password\"\n                                placeholder=\"请输入密码\"\n                                autofocus\n                            />\n                        </div>\n                        <label class=\"staticrypt-remember\">\n                            <input id=\"staticrypt-modal-remember\" type=\"checkbox\" name=\"remember\" />\n                            记住密码\n                        </label>\n                        <input type=\"submit\" class=\"staticrypt-decrypt-button\" value=\"解密\" />\n                    </form>\n                </div>\n            </div>\n        </div>\n    ").data

/-- Modelled from the spec: `codec.init(cryptoEngine).encodeWithHashedPassword`
    (lib/codec.js is not among the sources).  Spec §6: the encode entry point
    "internally calls ContentSegmenter.extractSections, serialize,
    CryptoCodec.encrypt" — with the key already derived, the serialized
    plaintext is encrypted into the wire-format envelope. -/
def encodeWithHashedPassword (C : BlockCipher) (iv : Bytes)
    (msg hashedPassword : List Char) : Option (List Char) :=
  encrypt C iv (utf8EncodeList msg) hashedPassword

/-- What the encoder writes for one input file. -/
inductive EncodeOutput where
  | passthrough (contents : List Char)
  | encrypted (finalHtml : List Char)
deriving DecidableEq

/-- `encodeAndGenerateFile` (src/cli/index.js lines 226-408), as the content
    it writes: a pass-through copy of the input when nothing was extracted
    (`encryptedContent === "[]"`), otherwise the processed HTML with the
    configuration block spliced before `</head>` and the password modal
    before `</body>`.  File-system traversal and output paths are outside
    the model; the random IV is the explicit `iv`. -/
def encodeAndGenerateFile (C : BlockCipher) (iv : Bytes)
    (hashedPassword salt : List Char) (isRememberEnabled : Bool)
    (rememberDurationInDays : Int) (contents : List Char) : Option EncodeOutput :=
  let ec := (processHtmlContent contents).1
  let processedHtml := (processHtmlContent contents).2
  if ec = ("[]").data then some (.passthrough contents)
  else
    match encodeWithHashedPassword C iv ec hashedPassword with
    | none => none
    | some encryptedMsg =>
      let injectedHtml := replaceFirst (("</head>").data)
        (headInjection encryptedMsg isRememberEnabled rememberDurationInDays salt)
        processedHtml
      some (.encrypted (replaceFirst (("</body>").data)
        (modalHtml ++ ("</body>").data) injectedHtml))

/-- C6 — **No markers means pass-through**: on HTML with no begin/end marker
    pair, extraction returns the original HTML unchanged together with an
    empty section list (`encryptedContent = "[]"`), and the encoder skips
    encryption entirely and writes the original file content unchanged. -/
theorem no_markers_passthrough (contents : List Char) (C : BlockCipher) (iv : Bytes)
    (hashedPassword salt : List Char) (isRememberEnabled : Bool)
    (rememberDurationInDays : Int)
    (h : hasMarkerPair contents = false) :
    extractSections contents = (contents, []) ∧
    processHtmlContent contents = (("[]").data, contents) ∧
    encodeAndGenerateFile C iv hashedPassword salt isRememberEnabled
      rememberDurationInDays contents = some (.passthrough contents) := by
  have hext : extractSections contents = (contents, []) :=
    extractLoop_no_pair contents.length contents 0 h
  have hjson : processHtmlContent contents = (("[]").data, contents) := by
    rw [processHtmlContent, hext]
    rfl
  refine ⟨hext, hjson, ?_⟩
  simp [encodeAndGenerateFile, hjson]

/-- Closed instance backing `no_markers_passthrough` (C6). -/
theorem no_markers_passthrough_witness :
    extractSections (("<p>hello</p>").data) = ((("<p>hello</p>").data), []) ∧
    processHtmlContent (("<p>hello</p>").data) = (("[]").data, ("<p>hello</p>").data) ∧
    encodeAndGenerateFile xorCipher demoIv demoKeyHex (("s1").data) true 0
      (("<p>hello</p>").data) = some (.passthrough (("<p>hello</p>").data)) :=
  no_markers_passthrough (("<p>hello</p>").data) xorCipher demoIv demoKeyHex
    (("s1").data) true 0 (by decide)

/-! ## Claim C5 — the encode scenario -/

/-- The HTML input of the spec scenario, with the markers as written in the
    claim. -/
def claimScenarioHtml : List Char := ("<p>A</p><!--start-->secret<!--end--><p>B</p>").data

/-- C5 (counterexample) — with the claim's literal input
    `<p>A</p><!--start-->secret<!--end--><p>B</p>` the code extracts *no*
    section at all (its markers are `<!--staticrypt-start-->` /
    `<!--staticrypt-end-->`), so no placeholder is produced; and even with
    the code's markers the assigned id is `staticrypt-section-0`, not
    `section-0`. -/
theorem section_ids_counterexample :
    (extractSections claimScenarioHtml).2 = [] ∧
    (extractSections claimScenarioHtml).1 = claimScenarioHtml ∧
    (extractSections
        (("<p>A</p><!--staticrypt-start-->secret<!--staticrypt-end--><p>B</p>").data)).2 =
      [⟨("staticrypt-section-0").data, ("secret").data⟩] ∧
    ("staticrypt-section-0").data ≠ ("section-0").data := by
  decide

/-- The scenario HTML with the markers the code actually recognizes. -/
def scenarioHtml : List Char :=
  ("<p>A</p><!--staticrypt-start-->secret<!--staticrypt-end--><p>B</p>").data

/-- The serialized sections array the scenario produces. -/
def scenarioJson : List Char :=
  ("[\x7b\"id\":\"staticrypt-section-0\",\"content\":\"secret\"\x7d]").data

theorem utf8EncodeCharNat_lt (c : Char) : ∀ x ∈ utf8EncodeCharNat c, x < 256 := by
  have hc : c.toNat < 1114112 := by
    rcases c.valid with h | ⟨_, h⟩ <;> simp [Char.toNat] <;> omega
  intro x hx
  simp only [utf8EncodeCharNat] at hx
  split at hx
  · simp at hx; omega
  · split at hx
    · simp at hx
      rcases hx with rfl | rfl <;> omega
    · split at hx
      · simp at hx
        rcases hx with rfl | rfl | rfl <;> omega
      · simp at hx
        rcases hx with rfl | rfl | rfl | rfl <;> omega

theorem utf8EncodeList_lt (cs : List Char) : ∀ x ∈ utf8EncodeList cs, x < 256 := by
  intro x hx
  rw [utf8EncodeList] at hx
  obtain ⟨b, hb, hxb⟩ := List.mem_flatten.mp hx
  obtain ⟨c, _, rfl⟩ := List.mem_map.mp hb
  exact utf8EncodeCharNat_lt c x hxb

/-- C5 (amended) — **Encode scenario**: on
    `<p>A</p><!--staticrypt-start-->secret<!--staticrypt-end--><p>B</p>`
    the code produces exactly one placeholder, the extracted sections are
    `[{id: "staticrypt-section-0", content: "secret"}]` (sequential ids in
    encounter order with the code's `staticrypt-section-` prefix), and
    decrypting the embedded envelope with the same well-formed derived key
    yields exactly that serialized array. -/
theorem scenario_encode_round_trip (C : BlockCipher) (iv keyBytes : Bytes)
    (hp env : List Char)
    (hiv : iv.length = 16) (hivlt : ∀ x ∈ iv, x < 256)
    (hkey : HexEncoder.parse hp = some keyBytes) (hklen : keyBytes.length = 32)
    (henv : encodeWithHashedPassword C iv (processHtmlContent scenarioHtml).1 hp = some env) :
    (processHtmlContent scenarioHtml).1 = scenarioJson ∧
    (extractSections scenarioHtml).2 =
      [⟨("staticrypt-section-0").data, ("secret").data⟩] ∧
    countOcc (("data-staticrypt-id=").data) (processHtmlContent scenarioHtml).2 = 1 ∧
    decrypt C env hp = some (utf8EncodeList scenarioJson) := by
  have hjson : (processHtmlContent scenarioHtml).1 = scenarioJson := by decide
  refine ⟨hjson, by decide, by decide, ?_⟩
  rw [encodeWithHashedPassword, hjson] at henv
  exact decrypt_encrypt_round_trip C iv (utf8EncodeList scenarioJson) keyBytes hp env hiv
    hivlt (utf8EncodeList_lt scenarioJson) hkey hklen henv

/-- Closed instance backing `scenario_encode_round_trip` (C5). -/
theorem scenario_encode_round_trip_witness :
    (processHtmlContent scenarioHtml).1 = scenarioJson ∧
    (extractSections scenarioHtml).2 =
      [⟨("staticrypt-section-0").data, ("secret").data⟩] ∧
    countOcc (("data-staticrypt-id=").data) (processHtmlContent scenarioHtml).2 = 1 ∧
    decrypt xorCipher
      ((encodeWithHashedPassword xorCipher demoIv (processHtmlContent scenarioHtml).1
        demoKeyHex).getD [])
      demoKeyHex = some (utf8EncodeList scenarioJson) :=
  scenario_encode_round_trip xorCipher demoIv (List.replicate 32 0) demoKeyHex
    ((encodeWithHashedPassword xorCipher demoIv (processHtmlContent scenarioHtml).1
      demoKeyHex).getD [])
    (by decide) (by decide) (by decide) (by decide) (by rfl)

/-! ## Claim C9 — decrypt mode (`decodeAndGenerateFile`) -/

/-- One position attempt of the regex `/"<key>":\s*"([^"]+)"/`
    (src/cli/index.js lines 177-178): the literal quoted-key prefix `lit`
    (including the leading `"` and the trailing `":`), then `\s*`, then a
    quoted nonempty run of non-quote characters; returns the capture. -/
def matchConfigCaptureAt (lit text : List Char) : Option (List Char) :=
  if lit.isPrefixOf text then
    match (text.drop lit.length).dropWhile jsWhitespaceChar with
    | '"' :: rest2 =>
      let cap := rest2.takeWhile (fun c => !(c == '"'))
      if cap.isEmpty then none
      else if (rest2.drop cap.length).head? = some '"' then some cap else none
    | _ => none
  else none

/-- Leftmost match of the configuration-block regex: the engine tries every
    position in turn and returns the first full match's capture group. -/
def regexFirstCapture (lit : List Char) : List Char → Option (List Char)
  | [] => none
  | c :: rest =>
    match matchConfigCaptureAt lit (c :: rest) with
    | some cap => some cap
    | none => regexFirstCapture lit rest

/-- Modelled from the spec: `codec.init(cryptoEngine).decode` (lib/codec.js
    is not among the sources).  Spec §6: decrypt mode "call[s]
    CryptoCodec.decrypt" on the extracted envelope with the derived key,
    yielding `{success, decoded}`. -/
def codecDecode (C : BlockCipher) (encryptedMsg hashedPassword : List Char) :
    Option Bytes :=
  decrypt C encryptedMsg hashedPassword

/-- The quoted-key literal of the envelope-extraction regex. -/
def encMsgKeyRegexLit : List Char := ("\"staticryptEncryptedMsgUniqueVariableName\":").data

/-- The quoted-key literal of the salt-extraction regex. -/
def saltKeyRegexLit : List Char := ("\"staticryptSaltUniqueVariableName\":").data

/-- `decodeAndGenerateFile` (src/cli/index.js lines 172-194), as the content
    it writes (`none` when the command only logs an error): the envelope and
    the salt are extracted from the previously generated file with the
    regexes `/"staticryptEncryptedMsgUniqueVariableName":\s*"([^"]+)"/` and
    `/"staticryptSaltUniqueVariableName":\s*"([^"]+)"/`, then the envelope is
    decrypted with the derived key. -/
def decodeAndGenerateFile (C : BlockCipher) (fileContent hashedPassword : List Char) :
    Option Bytes :=
  match regexFirstCapture encMsgKeyRegexLit fileContent with
  | none => none
  | some cipherText =>
    match regexFirstCapture saltKeyRegexLit fileContent with
    | none => none
    | some _salt => codecDecode C cipherText hashedPassword

/-- A well-formed HTML file with one marked section, used to exercise the
    encode/decode pair. -/
def demoFullHtml : List Char :=
  ("<html><head></head><body><!--staticrypt-start-->secret<!--staticrypt-end--></body></html>").data

/-! ### Substring non-occurrence, established piecewise

The decrypt-mode regexes scan a file of several thousand characters; their
failure is reduced to linear scans of short overlapping segments through the
following lemmas. -/

/-- Whether `lit` matches as a prefix at some position of `t`. -/
def occursIn (lit : List Char) : List Char → Bool
  | [] => lit.isPrefixOf []
  | t@(_ :: rest) => lit.isPrefixOf t || occursIn lit rest

theorem occursIn_complete (lit : List Char) :
    ∀ (t : List Char) (i : Nat), lit.isPrefixOf (t.drop i) = true →
      occursIn lit t = true
  | [], i, h => by
    simp [List.drop_nil] at h
    subst h
    rfl
  | c :: rest, 0, h => by
    have h' : lit.isPrefixOf (c :: rest) = true := by simpa using h
    simp [occursIn, h']
  | c :: rest, i + 1, h => by
    have := occursIn_complete lit rest i (by simpa using h)
    simp [occursIn, this]

theorem not_prefix_at_of_occursIn (lit t : List Char) (h : occursIn lit t = false) :
    ∀ i, lit.isPrefixOf (t.drop i) = false := by
  intro i
  cases hp : lit.isPrefixOf (t.drop i) with
  | false => rfl
  | true => rw [occursIn_complete lit t i hp] at h; exact Bool.noConfusion h

theorem isPrefixOf_congr_take (pat t₁ t₂ : List Char)
    (h : t₁.take pat.length = t₂.take pat.length) :
    pat.isPrefixOf t₁ = pat.isPrefixOf t₂ := by
  have key : ∀ u v : List Char, u.take pat.length = v.take pat.length →
      pat.isPrefixOf u = true → pat.isPrefixOf v = true := by
    intro u v huv hu
    replace hu := List.prefix_iff_eq_take.mp (List.isPrefixOf_iff_prefix.mp hu)
    refine List.isPrefixOf_iff_prefix.mpr (List.prefix_iff_eq_take.mpr ?_)
    rw [← huv]
    exact hu
  cases h₁ : pat.isPrefixOf t₁ with
  | true => rw [key t₁ t₂ h h₁]
  | false =>
    cases h₂ : pat.isPrefixOf t₂ with
    | false => rfl
    | true =>
      rw [key t₂ t₁ h.symm h₂] at h₁
      exact Bool.noConfusion h₁

theorem take_append_take (A B : List Char) (m : Nat) :
    (A ++ B).take m = (A ++ B.take m).take m := by
  rw [List.take_append_eq_append_take, List.take_append_eq_append_take, List.take_take]
  congr 2
  exact (min_eq_left (by omega)).symm

theorem prefix_of_take (lit X : List Char) (k : Nat)
    (h : lit.isPrefixOf X = true) (hk : lit.length ≤ k) :
    lit.isPrefixOf (X.take k) = true := by
  rw [List.isPrefixOf_iff_prefix] at h ⊢
  rw [List.prefix_iff_eq_take] at h ⊢
  rw [List.take_take]
  have : min lit.length k = lit.length := by omega
  rw [this, ← h]

/-- Exclusion of the pattern from the first `n` positions plus exclusion
    from the suffix covers the whole string (segmented scanning with an
    overlap of `lit.length - 1`). -/
theorem no_prefix_chain (lit f : List Char) (n : Nat)
    (h1 : occursIn lit (f.take (n + lit.length - 1)) = false)
    (h2 : ∀ i, lit.isPrefixOf ((f.drop n).drop i) = false) :
    ∀ i, lit.isPrefixOf (f.drop i) = false := by
  intro i
  by_cases hin : n ≤ i
  · have := h2 (i - n)
    rw [List.drop_drop] at this
    have harith : n + (i - n) = i := by omega
    rw [harith] at this
    exact this
  · cases hp : lit.isPrefixOf (f.drop i) with
    | false => rfl
    | true =>
      have hpre : lit.isPrefixOf ((f.take (n + lit.length - 1)).drop i) = true := by
        rw [List.drop_take]
        exact prefix_of_take lit (f.drop i) _ hp (by omega)
      rw [occursIn_complete lit _ i hpre] at h1
      exact Bool.noConfusion h1

/-- `splitFirst` skips over a block `X` that contains no (possibly
    straddling) occurrence of the pattern. -/
theorem splitFirst_append (pat : List Char) :
    ∀ (X Y : List Char),
      (∀ i, pat.isPrefixOf ((X ++ Y.take (pat.length - 1)).drop i) = false) →
      splitFirst pat (X ++ Y) =
        (splitFirst pat Y).map (fun pq => (X ++ pq.1, pq.2))
  | [], Y, _ => by
    cases h : splitFirst pat Y with
    | none => simp [h]
    | some pq => simp [h]
  | c :: X', Y, h => by
    have h0 : pat.isPrefixOf (c :: (X' ++ Y)) = false := by
      have hagree : (c :: (X' ++ Y)).take pat.length =
          (c :: (X' ++ Y.take (pat.length - 1))).take pat.length := by
        cases hL : pat.length with
        | zero => rfl
        | succ m =>
          simp only [List.take_succ_cons, Nat.add_sub_cancel]
          rw [take_append_take X' Y m]
      rw [isPrefixOf_congr_take pat _ _ hagree]
      simpa using h 0
    show splitFirst pat (c :: (X' ++ Y)) = _
    rw [splitFirst, if_neg (by simp [h0])]
    have ih := splitFirst_append pat X' Y (fun i => by simpa using h (i + 1))
    rw [ih]
    cases hY : splitFirst pat Y with
    | none => rfl
    | some pq => obtain ⟨a, b⟩ := pq; rfl

theorem regexFirstCapture_eq_none (lit : List Char) :
    ∀ (t : List Char), (∀ i, lit.isPrefixOf (t.drop i) = false) →
      regexFirstCapture lit t = none
  | [], _ => rfl
  | c :: rest, h => by
    have hm : matchConfigCaptureAt lit (c :: rest) = none := by
      have h0 := h 0
      rw [List.drop_zero] at h0
      rw [matchConfigCaptureAt, if_neg]
      simp [h0]
    rw [regexFirstCapture, hm]
    exact regexFirstCapture_eq_none lit rest fun i => by simpa using h (i + 1)

/-- `encryptedContent` computed for `demoFullHtml`. -/
def demoJson : List Char := ("[\x7b\"id\":\"staticrypt-section-0\",\"content\":\"secret\"\x7d]").data

/-- `processedHtml` computed for `demoFullHtml`. -/
def demoProcessed : List Char := ("<html><head></head><body><div data-staticrypt-id=\"staticrypt-section-0\" class=\"staticrypt-placeholder\">\n                <div class=\"staticrypt-password-prompt\">\n                    <p>此内容受密码保护</p>\n                    <button onclick=\"staticrypt.showPasswordPrompt(\x27staticrypt-section-0\x27)\">点击查看内容</button>\n                </div>\n            </div></body></html>").data

/-- The envelope the demo encode embeds (zero IV, `xorCipher`, all-zero
    key). -/
def demoEnv : List Char := ("000000000000000000000000000000005b7b226964223a2273746174696372792b0f0f1a01414e4b1c1a4c444b4f501a44617b7f6f356c713e692927392a2438393c7571613b627f3067272937242a36").data

def demoP1 : List Char := ("<html><head>").data

def demoP2 : List Char := ("<body><div data-staticrypt-id=\"staticrypt-section-0\" class=\"staticrypt-placeholder\">\n                <div class=\"staticrypt-password-prompt\">\n                    <p>此内容受密码保护</p>\n                    <button onclick=\"staticrypt.showPasswordPrompt(\x27staticrypt-section-0\x27)\">点击查看内容</button>\n                </div>\n            </div></body></html>").data

def demoP2a : List Char := ("<body><div data-staticrypt-id=\"staticrypt-section-0\" class=\"staticrypt-placeholder\">\n                <div class=\"staticrypt-password-prompt\">\n                    <p>此内容受密码保护</p>\n                    <button onclick=\"staticrypt.showPasswordPrompt(\x27staticrypt-section-0\x27)\">点击查看内容</button>\n                </div>\n            </div>").data

/-- The file content the demo encode writes: the processed HTML of
    `demoFullHtml` with the configuration block spliced before `</head>` and
    the modal spliced before `</body>`. -/
def encodedDemoFile : List Char :=
  (((demoP1 ++ headInjection demoEnv true 0 (("s1").data)) ++ demoP2a) ++
    (modalHtml ++ ("</body>").data)) ++ ("</html>").data

theorem replaceFirst_eq (pat repl text pre post : List Char)
    (h : splitFirst pat text = some (pre, post)) :
    replaceFirst pat repl text = pre ++ repl ++ post := by
  rw [replaceFirst, h]

theorem encodeAndGenerateFile_encrypted (C : BlockCipher) (iv : Bytes)
    (hashedPassword salt : List Char) (isRememberEnabled : Bool)
    (rememberDurationInDays : Int) (contents ec ph env injected final : List Char)
    (hproc : processHtmlContent contents = (ec, ph)) (hne : ec ≠ ("[]").data)
    (henv : encodeWithHashedPassword C iv ec hashedPassword = some env)
    (hinj : replaceFirst (("</head>").data)
      (headInjection env isRememberEnabled rememberDurationInDays salt) ph = injected)
    (hfin : replaceFirst (("</body>").data) (modalHtml ++ ("</body>").data)
      injected = final) :
    encodeAndGenerateFile C iv hashedPassword salt isRememberEnabled
      rememberDurationInDays contents = some (.encrypted final) := by
  simp only [encodeAndGenerateFile, hproc]
  rw [if_neg hne]
  simp only [henv]
  rw [hinj, hfin]

theorem decodeAndGenerateFile_none (C : BlockCipher)
    (fileContent hashedPassword : List Char)
    (h : regexFirstCapture encMsgKeyRegexLit fileContent = none) :
    decodeAndGenerateFile C fileContent hashedPassword = none := by
  rw [decodeAndGenerateFile, h]

/-- C9 — the decrypt mode *cannot* read the files the encoder produces:
    `encodeAndGenerateFile` injects the configuration as a JS object literal
    with *unquoted* keys (`staticryptEncryptedMsgUniqueVariableName: "…"`),
    while `decodeAndGenerateFile`'s regex demands a *quoted* key
    (`"staticryptEncryptedMsgUniqueVariableName":`), so the pattern match
    fails on the encoder's own output and decrypt mode reports a per-file
    error instead of writing the recovered plaintext.  Shown on a concrete
    encode of `demoFullHtml`. -/
theorem decode_mode_rejects_encoded_file :
    encodeAndGenerateFile xorCipher demoIv demoKeyHex (("s1").data) true 0 demoFullHtml =
      some (.encrypted encodedDemoFile) ∧
    regexFirstCapture encMsgKeyRegexLit encodedDemoFile = none ∧
    decodeAndGenerateFile xorCipher encodedDemoFile demoKeyHex = none := by
  have hproc : processHtmlContent demoFullHtml = (demoJson, demoProcessed) := by decide
  have hjenv : encodeWithHashedPassword xorCipher demoIv demoJson demoKeyHex =
      some demoEnv := by decide
  have hsplithead : splitFirst (("</head>").data) demoProcessed =
      some (demoP1, demoP2) := by decide
  have hsplitbody2 : splitFirst (("</body>").data) demoP2 =
      some (demoP2a, ("</html>").data) := by decide
  have hb1 : ∀ i, (("</body>").data).isPrefixOf
      (((demoP1 ++ headInjection demoEnv true 0 (("s1").data)) ++
        demoP2.take ((("</body>").data).length - 1)).drop i) = false := by
    apply no_prefix_chain _ _ 800 (by decide)
    apply no_prefix_chain _ _ 800 (by decide)
    apply no_prefix_chain _ _ 800 (by decide)
    apply no_prefix_chain _ _ 800 (by decide)
    exact not_prefix_at_of_occursIn _ _ (by decide)
  have hsb : splitFirst (("</body>").data)
      ((demoP1 ++ headInjection demoEnv true 0 (("s1").data)) ++ demoP2) =
      some ((demoP1 ++ headInjection demoEnv true 0 (("s1").data)) ++ demoP2a,
        ("</html>").data) := by
    rw [splitFirst_append _ _ demoP2 hb1, hsplitbody2]
    rfl
  have henc : encodeAndGenerateFile xorCipher demoIv demoKeyHex (("s1").data) true 0
      demoFullHtml = some (.encrypted encodedDemoFile) :=
    encodeAndGenerateFile_encrypted xorCipher demoIv demoKeyHex (("s1").data) true 0
      demoFullHtml demoJson demoProcessed demoEnv _ encodedDemoFile hproc
      (by decide) hjenv (replaceFirst_eq _ _ _ _ _ hsplithead)
      ((replaceFirst_eq _ _ _ _ _ hsb).trans rfl)
  have hreg : ∀ i, encMsgKeyRegexLit.isPrefixOf (encodedDemoFile.drop i) = false := by
    apply no_prefix_chain _ _ 800 (by decide)
    apply no_prefix_chain _ _ 800 (by decide)
    apply no_prefix_chain _ _ 800 (by decide)
    apply no_prefix_chain _ _ 800 (by decide)
    apply no_prefix_chain _ _ 800 (by decide)
    apply no_prefix_chain _ _ 800 (by decide)
    exact not_prefix_at_of_occursIn _ _ (by decide)
  have hre : regexFirstCapture encMsgKeyRegexLit encodedDemoFile = none :=
    regexFirstCapture_eq_none _ _ hreg
  exact ⟨henc, hre, decodeAndGenerateFile_none xorCipher encodedDemoFile demoKeyHex hre⟩
/-! ### Remembered-credential recall
    (`tryRememberedPassword`, src/lib/staticrypt.js lines 636-677) -/

/-- `localStorage` contents: key/value pairs, most recent `setItem` first. -/
abbrev Store := List (List Char × List Char)

/-- `localStorage.getItem`: the stored string, or `none` for JS `null`. -/
def getItem (k : List Char) (store : Store) : Option (List Char) :=
  (store.find? (fun p => p.1 == k)).map Prod.snd

/-- `localStorage.removeItem`. -/
def removeItem (k : List Char) (store : Store) : Store :=
  store.filter (fun p => !(p.1 == k))

/-- JS falsiness of a `localStorage.getItem` result: `null` and the empty
    string are the falsy cases. -/
def jsFalsyItem : Option (List Char) → Bool
  | none => true
  | some s => s == []

/-- The longest leading run of decimal digits, as a value; `none` when the
    run is empty. -/
def takeDecDigits : List Char → Option Nat → Option Nat
  | [], acc => acc
  | c :: rest, acc =>
    if c.isDigit then takeDecDigits rest (some (acc.getD 0 * 10 + (c.toNat - 48)))
    else acc

/-- JS `parseInt(s)` in base 10: skip leading whitespace, an optional sign,
    then the longest run of decimal digits; `none` is `NaN` (no digit). -/
def jsParseIntDec (s : List Char) : Option Int :=
  match s.dropWhile jsWhitespaceChar with
  | '-' :: rest => (takeDecDigits rest none).map (fun v => -(v : Int))
  | '+' :: rest => (takeDecDigits rest none).map (fun v => (v : Int))
  | t => (takeDecDigits t none).map (fun v => (v : Int))

/-- The storage key `staticrypt_passphrase_${sectionId}`. -/
def passphraseKey (sectionId : List Char) : List Char :=
  ("staticrypt_passphrase_").data ++ sectionId

/-- The storage key `staticrypt_expiration_${sectionId}`. -/
def expirationKey (sectionId : List Char) : List Char :=
  ("staticrypt_expiration_").data ++ sectionId

/-- The JS test `expiration && new Date().getTime() > parseInt(expiration)`
    (line 642): false when `expiration` is `null` or `""` (falsy), and false
    when `parseInt` yields `NaN`, since every comparison with `NaN` is
    false. -/
def expirationPast (now : Int) : Option (List Char) → Bool
  | none => false
  | some e =>
    if e = [] then false
    else
      match jsParseIntDec e with
      | some v => decide (v < now)
      | none => false

/-- The credential-recall prefix of `tryRememberedPassword`
    (src/lib/staticrypt.js lines 639-649): read the remembered hashed
    password and expiration for `sectionId`; if the password is falsy, or the
    expiration is truthy with `now > parseInt(expiration)`, remove both
    entries and return no credential (line 645's `return false`); otherwise
    return the stored hashed password that line 649 hands to
    `cryptoEngine.decrypt`, leaving the store unchanged. -/
def recallCredential (now : Int) (sectionId : List Char) (store : Store) :
    Option (List Char) × Store :=
  let hashedPassword := getItem (passphraseKey sectionId) store
  let expiration := getItem (expirationKey sectionId) store
  if jsFalsyItem hashedPassword || expirationPast now expiration then
    (none, removeItem (expirationKey sectionId)
      (removeItem (passphraseKey sectionId) store))
  else
    (hashedPassword, store)

/-- A two-entry store: a remembered key for section `s1` expiring at 100. -/
def demoStore : Store :=
  [((("staticrypt_passphrase_s1").data), (("KEY").data)),
    ((("staticrypt_expiration_s1").data), (("100").data))]

/-! ### Browser-side section caches
    (variant 1 `decryptSection`, src/lib/staticrypt.js lines 115-161;
    variant 3 `decryptedSections`, lines 543, 582-632, 685-715) -/

/-- Variant 1 controller state: the cached parsed array
    (`decryptedContent`, line 115) and the placeholder elements still in the
    DOM, by their `data-staticrypt-id`. -/
structure V1State where
  decryptedContent : Option (List ProtectedSection)
  placeholders : List (List Char)
deriving DecidableEq

/-- The injection tail of variant 1 `decryptSection` (lines 146-160): look
    `sectionId` up in the array; if found and its placeholder is still in the
    DOM, splice the content in, remove the placeholder and return `true`;
    otherwise return `false`. -/
def injectSection (arr : List ProtectedSection) (sectionId : List Char)
    (placeholders : List (List Char)) : Bool × List (List Char) :=
  match arr.find? (fun s => s.id == sectionId) with
  | some _ =>
    if placeholders.contains sectionId then
      (true, placeholders.filter (fun p => !(p == sectionId)))
    else (false, placeholders)
  | none => (false, placeholders)

/-- Variant 1 `decryptSection` (lines 118-161). With an empty cache the
    password field is hashed and the envelope decrypted and parsed; that
    crypto step's outcome is the parameter `attempt` (`none` models the
    `catch` of line 140: alert, return `undefined`, no state change). With a
    populated cache the `attempt` parameter is never consulted: no hashing or
    decryption runs, the lookup goes straight to the cached array. -/
def decryptSection (attempt : Option (List ProtectedSection))
    (sectionId : List Char) (st : V1State) : Bool × V1State :=
  match st.decryptedContent with
  | none =>
    match attempt with
    | none => (false, st)
    | some arr =>
      let r := injectSection arr sectionId st.placeholders
      (r.1, V1State.mk (some arr) r.2)
  | some arr =>
    let r := injectSection arr sectionId st.placeholders
    (r.1, V1State.mk (some arr) r.2)

/-- Variant 3 cache `decryptedSections : Map` (line 543): entries
    `sectionId ↦ (content, password)`; `Map.set` makes the newest entry
    shadow older ones. -/
abbrev SectionCache := List (List Char × List Char × List Char)

/-- `decryptedSections.has sectionId`. -/
def cacheHas (sectionId : List Char) (cache : SectionCache) : Bool :=
  (cache.find? (fun p => p.1 == sectionId)).isSome

/-- The cache effect of variant 3's form-submit handler (lines 590-603):
    a successful hash+decrypt+parse (`attempt = some sections`) looks up the
    one requested section and stores only that entry in `decryptedSections`;
    a throw (`attempt = none`) or a missing section leaves the cache
    unchanged. -/
def formSubmitCache (attempt : Option (List ProtectedSection))
    (hashedPassword sectionId : List Char) (cache : SectionCache) :
    SectionCache :=
  match attempt with
  | none => cache
  | some sections =>
    match sections.find? (fun s => s.id == sectionId) with
    | none => cache
    | some sec => (sectionId, sec.content, hashedPassword) :: cache

inductive PromptOutcome where
  | injectedFromCache
  | openedModal
deriving DecidableEq

/-- Variant 3 `showPasswordPrompt` (lines 685-715): when `decryptedSections`
    holds an entry for `sectionId` its cached content is injected with no
    password interaction; otherwise the password modal is opened for this
    section (the remembered-password fallback then runs in the
    background). -/
def showPasswordPrompt (sectionId : List Char) (cache : SectionCache) :
    PromptOutcome :=
  if cacheHas sectionId cache then .injectedFromCache else .openedModal

/-- C7 counterexample — with `now` exactly equal to the stored expiration
    timestamp the entry is outside its validity window as specified
    (`now < expiresAt` fails), yet `tryRememberedPassword` neither evicts nor
    returns absent: line 642 tests `now > parseInt(expiration)`, so at the
    boundary it hands the stored key to the decrypt attempt and leaves both
    entries in storage. -/
theorem recall_boundary_returns_expired_key_counterexample :
    getItem (expirationKey (("s1").data)) demoStore = some (("100").data) ∧
    ¬((100 : Int) < 100) ∧
    recallCredential 100 (("s1").data) demoStore =
      (some (("KEY").data), demoStore) := by
  refine ⟨by decide, by decide, by decide⟩

/-- C7 (amended) — an expiration strictly in the past is honoured: if the
    stored expiration is a truthy string parsing to `v` with `v < now`,
    `recallCredential` removes both storage entries and returns no
    credential, so a strictly expired key is never handed to the decrypt
    attempt.  (At `v = now`, or when the expiration does not parse, the key
    is handed out and nothing is evicted — see the counterexample.) -/
theorem recall_strictly_expired_evicts (now v : Int) (sectionId e : List Char)
    (store : Store)
    (hexp : getItem (expirationKey sectionId) store = some e) (hne : e ≠ [])
    (hv : jsParseIntDec e = some v) (hlt : v < now) :
    recallCredential now sectionId store =
      (none, removeItem (expirationKey sectionId)
        (removeItem (passphraseKey sectionId) store)) := by
  have hpast : expirationPast now (some e) = true := by
    simp only [expirationPast, if_neg hne, hv]
    exact decide_eq_true hlt
  simp only [recallCredential, hexp, hpast, Bool.or_true, if_true]

/-- Witness for the amended C7 theorem: `now = 101` on the demo store evicts
    both entries. -/
theorem recall_strictly_expired_evicts_witness :
    recallCredential 101 (("s1").data) demoStore =
      (none, removeItem (expirationKey (("s1").data))
        (removeItem (passphraseKey (("s1").data)) demoStore)) :=
  recall_strictly_expired_evicts 101 100 (("s1").data) (("100").data) demoStore
    (by decide) (by decide) (by decide) (by decide)

/-- C10 counterexample — in the variant that keeps the `decryptedSections`
    map (src/lib/staticrypt.js lines 543, 582-632, 685-715) one correct
    password does not unlock the other sections: a successful submit for
    `staticrypt-section-0` of a document whose parsed array also holds
    `staticrypt-section-1` caches only section 0 (and injects it from the
    cache), so the next `showPasswordPrompt` for section 1 finds no cache
    entry and opens the password modal again. -/
theorem per_section_cache_reprompts_counterexample :
    showPasswordPrompt (("staticrypt-section-0").data)
      (formSubmitCache
        (some [ProtectedSection.mk (("staticrypt-section-0").data) (("A").data),
          ProtectedSection.mk (("staticrypt-section-1").data) (("B").data)])
        (("KEYHEX").data) (("staticrypt-section-0").data) []) =
      .injectedFromCache ∧
    showPasswordPrompt (("staticrypt-section-1").data)
      (formSubmitCache
        (some [ProtectedSection.mk (("staticrypt-section-0").data) (("A").data),
          ProtectedSection.mk (("staticrypt-section-1").data) (("B").data)])
        (("KEYHEX").data) (("staticrypt-section-0").data) []) =
      .openedModal := by
  refine ⟨by decide, by decide⟩

/-- C10 (amended, variant 1) — where the whole parsed array is cached
    (src/lib/staticrypt.js lines 115-161), one successful decryption does
    unlock everything: with `decryptedContent` populated, `decryptSection`
    gives the same result for every crypto `attempt` — including `none`,
    i.e. no password at all — and every id present in the cached array whose
    placeholder is still in the DOM is injected successfully. -/
theorem cached_array_unlocks_without_crypto
    (attempt : Option (List ProtectedSection)) (arr : List ProtectedSection)
    (sectionId : List Char) (ph : List (List Char))
    (hfound : (arr.find? (fun s => s.id == sectionId)).isSome = true)
    (hph : ph.contains sectionId = true) :
    decryptSection attempt sectionId (V1State.mk (some arr) ph) =
      decryptSection none sectionId (V1State.mk (some arr) ph) ∧
    (decryptSection attempt sectionId (V1State.mk (some arr) ph)).1 = true := by
  constructor
  · rfl
  · obtain ⟨sec, hsec⟩ := Option.isSome_iff_exists.mp hfound
    simp only [decryptSection, injectSection, hsec, hph, if_true]

/-- Witness for the amended C10 theorem: a one-section document, unlocked
    with no crypto attempt available. -/
theorem cached_array_unlocks_without_crypto_witness :
    decryptSection none (("s0").data)
        (V1State.mk (some [ProtectedSection.mk (("s0").data) (("A").data)])
          [(("s0").data)]) =
      decryptSection none (("s0").data)
        (V1State.mk (some [ProtectedSection.mk (("s0").data) (("A").data)])
          [(("s0").data)]) ∧
    (decryptSection none (("s0").data)
        (V1State.mk (some [ProtectedSection.mk (("s0").data) (("A").data)])
          [(("s0").data)])).1 = true :=
  cached_array_unlocks_without_crypto none
    [ProtectedSection.mk (("s0").data) (("A").data)] (("s0").data)
    [(("s0").data)] (by decide) (by decide)

end Staticrypt
